import Mathlib

/-!
Verification of the generic data-fetch/cache layer of the GICA frontend
(`src/lib/api/core/`): the TTL cache (`cache.ts`), the retry executor and
batch processor (`utils.ts`), the image cache (`imageCache.ts`), the data
manager (`dataManager.ts`) and the cache-key scheme of the API client.

The JavaScript source is shallowly embedded: pure functions become Lean
functions; the event-loop concurrency of the data manager becomes an
explicit small-step system in which every synchronous run of JS code
(code between two `await` suspension points) is one atomic step; wall
clock time (`Date.now()`) is an explicit `now : Int` argument; promise
rejection is `Except`.
-/

namespace GICA

/-- JSON-safe values, the domain of `deepClone` ("Deep clone an object
(JSON-safe)") and the payload type the data-fetch layer treats opaquely.
JS numbers are modelled as integers; `Date` objects are outside the
JSON-safe fragment and are not needed by any claim. -/
inductive Json where
  | null : Json
  | bool (b : Bool) : Json
  | num (n : Int) : Json
  | str (s : String) : Json
  | arr (items : List Json) : Json
  | obj (fields : List (String × Json)) : Json
deriving Repr

mutual

/-- `deepClone` from `utils.ts`: primitives are returned as-is, arrays are
cloned element-wise, objects are cloned field-wise (every assoc-list entry
is an own-property, so the `hasOwnProperty` filter keeps every field). -/
def deepClone : Json → Json
  | .null => .null
  | .bool b => .bool b
  | .num n => .num n
  | .str s => .str s
  | .arr items => .arr (deepCloneList items)
  | .obj fields => .obj (deepCloneFields fields)

/-- `obj.map((item) => deepClone(item))` for arrays. -/
def deepCloneList : List Json → List Json
  | [] => []
  | j :: rest => deepClone j :: deepCloneList rest

/-- The `for (const key in obj)` field-cloning loop. -/
def deepCloneFields : List (String × Json) → List (String × Json)
  | [] => []
  | (k, v) :: rest => (k, deepClone v) :: deepCloneFields rest

end

/-! ### JS `Map` as an insertion-ordered association list

`Map.set` on an existing key updates the entry in place (keeping its
position in iteration order); on a new key it appends.  Keys are unique by
construction (every map is built from `[]` by `mapSet` / `mapDelete`), so
replacing the first occurrence models the in-place update. -/

/-- `Map.prototype.has`. -/
def mapHas : List (String × β) → String → Bool
  | [], _ => false
  | p :: rest, k => p.1 == k || mapHas rest k

/-- `Map.prototype.get` (`undefined` is `none`). -/
def mapGet : List (String × β) → String → Option β
  | [], _ => none
  | p :: rest, k => if p.1 == k then some p.2 else mapGet rest k

/-- In-place update of an existing key. -/
def mapReplace : List (String × β) → String → β → List (String × β)
  | [], _, _ => []
  | p :: rest, k, v => if p.1 == k then (k, v) :: rest else p :: mapReplace rest k v

/-- `Map.prototype.set`. -/
def mapSet (m : List (String × β)) (k : String) (v : β) : List (String × β) :=
  if mapHas m k then mapReplace m k v else m ++ [(k, v)]

/-- `Map.prototype.delete` (removing every occurrence; keys are unique). -/
def mapDelete (m : List (String × β)) (k : String) : List (String × β) :=
  m.filter (fun p => p.1 != k)

/-! ### TTL cache (`cache.ts`, `AdvancedCache` / `ApiCache`) -/

/-- A stored cache entry (`CacheEntry<T>` in `cache.ts`). -/
structure CacheEntry (α : Type) where
  data : α
  timestamp : Int
  ttl : Int
  accessCount : Nat
  lastAccessed : Int
deriving Repr

/-- JS `x || d` on an optional number: `undefined` and `0` are falsy. -/
def jsOrInt (o : Option Int) (d : Int) : Int :=
  match o with
  | none => d
  | some t => if t = 0 then d else t

/-- JS `x || d` on an optional natural number. -/
def jsOrNat (o : Option Nat) (d : Nat) : Nat :=
  match o with
  | none => d
  | some 0 => d
  | some (n + 1) => n + 1

/-- `AdvancedCache` state: the backing `Map`, the defaults fixed by the
constructor, and the hit/miss counters.  The `onEviction` callback is not
modelled (no claim observes it). -/
structure AdvancedCache (α : Type) where
  entries : List (String × CacheEntry α)
  defaultTtl : Int
  maxSize : Nat
  hits : Nat
  misses : Nat
deriving Repr

/-- `new AdvancedCache(options)`: `ttl || 300000`, `maxSize || 100`. -/
def AdvancedCache.new (ttlOpt : Option Int) (maxSizeOpt : Option Nat) :
    AdvancedCache α :=
  { entries := []
    defaultTtl := jsOrInt ttlOpt 300000
    maxSize := jsOrNat maxSizeOpt 100
    hits := 0
    misses := 0 }

/-- `evictOldest`: scan for the strictly smallest `lastAccessed` (the first
such entry in iteration order wins, since the scan starts from `Infinity`
and uses `<`), then delete it.  The source guards the deletion with
`if (oldestKey)`, so the JS-falsy key `""` is never evicted. -/
def AdvancedCache.evictOldest (c : AdvancedCache α) : AdvancedCache α :=
  let oldest := c.entries.foldl
    (fun acc p =>
      match acc with
      | none => some p
      | some q => if p.2.lastAccessed < q.2.lastAccessed then some p else acc)
    none
  match oldest with
  | none => c
  | some (k, _) => if k = "" then c else { c with entries := mapDelete c.entries k }

/-- `AdvancedCache.set(key, value, ttl?)` at wall-clock instant `now`.
The stored TTL is `ttl || this.defaultTtl`, so a `ttl` of `0` falls back
to the default TTL while a negative `ttl` is stored as given. -/
def AdvancedCache.set (c : AdvancedCache α) (key : String) (value : α)
    (ttlOpt : Option Int) (now : Int) : AdvancedCache α :=
  let entry : CacheEntry α :=
    { data := value
      timestamp := now
      ttl := jsOrInt ttlOpt c.defaultTtl
      accessCount := 0
      lastAccessed := now }
  let c' := if c.entries.length ≥ c.maxSize && !(mapHas c.entries key)
    then c.evictOldest else c
  { c' with entries := mapSet c'.entries key entry }

/-- `AdvancedCache.get(key)` at instant `now`: miss on absent key; lazy
delete plus miss when `now - timestamp > ttl`; otherwise bump the access
statistics and return the data. -/
def AdvancedCache.get (c : AdvancedCache α) (key : String) (now : Int) :
    AdvancedCache α × Option α :=
  match mapGet c.entries key with
  | none => ({ c with misses := c.misses + 1 }, none)
  | some e =>
    if now - e.timestamp > e.ttl then
      ({ c with entries := mapDelete c.entries key, misses := c.misses + 1 }, none)
    else
      ({ c with
          entries := mapSet c.entries key
            { e with accessCount := e.accessCount + 1, lastAccessed := now }
          hits := c.hits + 1 },
        some e.data)

/-- `AdvancedCache.has(key)` at instant `now` (same expiry semantics as
`get`, including the lazy delete, but no statistics updates). -/
def AdvancedCache.has (c : AdvancedCache α) (key : String) (now : Int) :
    AdvancedCache α × Bool :=
  match mapGet c.entries key with
  | none => (c, false)
  | some e =>
    if now - e.timestamp > e.ttl then
      ({ c with entries := mapDelete c.entries key }, false)
    else
      (c, true)

/-- `AdvancedCache.delete(key)`. -/
def AdvancedCache.deleteKey (c : AdvancedCache α) (key : String) : AdvancedCache α :=
  { c with entries := mapDelete c.entries key }

/-- The module-level `generalCache = new AdvancedCache()` singleton's
initial state. -/
def generalCacheInit : AdvancedCache α := AdvancedCache.new none none

/-- The module-level `apiCache = new ApiCache()` singleton's initial state
(`ttl: 300000`, `maxSize: 50` from the `ApiCache` constructor). -/
def apiCacheInit : AdvancedCache α := AdvancedCache.new (some 300000) (some 50)

/-- The character class of the regex `[a-zA-Z0-9]`. -/
def jsIsAlphanumChar (ch : Char) : Bool :=
  (('a' ≤ ch && ch ≤ 'z') || ('A' ≤ ch && ch ≤ 'Z') || ('0' ≤ ch && ch ≤ '9'))

/-- `ApiCache.generateKey(endpoint, params?)`: every character of the
endpoint outside `[a-zA-Z0-9]` is replaced by `_`; with parameters (values
modelled as their already-serialized `JSON.stringify` strings) the sorted
`key=value` pairs are appended after `?`.  Every call site used by the
claims passes no parameters. -/
def ApiCache.generateKey (endpoint : String) (params : List (String × String)) :
    String :=
  let baseKey :=
    String.mk (endpoint.toList.map (fun ch => if jsIsAlphanumChar ch then ch else '_'))
  if params.isEmpty then baseKey
  else
    let sorted := (params.map Prod.fst).mergeSort (fun a b => a ≤ b)
    let parts := sorted.map (fun k => k ++ "=" ++ ((mapGet params k).getD "undefined"))
    baseKey ++ "?" ++ String.intercalate "&" parts

/-- `ApiCache.setApiResponse(endpoint, data, params?, ttl?)`. -/
def ApiCache.setApiResponse (c : AdvancedCache α) (endpoint : String) (data : α)
    (params : List (String × String)) (ttlOpt : Option Int) (now : Int) :
    AdvancedCache α :=
  c.set (ApiCache.generateKey endpoint params) data ttlOpt now

/-- `ApiCache.getApiResponse(endpoint, params?)`. -/
def ApiCache.getApiResponse (c : AdvancedCache α) (endpoint : String)
    (params : List (String × String)) (now : Int) : AdvancedCache α × Option α :=
  c.get (ApiCache.generateKey endpoint params) now

/-! ### Retry executor (`utils.ts`, `withRetry`) -/

/-- The two fields of `ApiError` that `withRetry` inspects: the message and
the `isRetryable` flag fixed at classification time.
`ApiErrorFactory.fromUnknownError` returns an `ApiError` unchanged, so an
operation is modelled as yielding the classified error directly. -/
structure ApiErrL where
  message : String
  retryable : Bool
deriving Repr, DecidableEq

/-- `RetryConfig` from `config.ts`: `backoffMultiplier` and `maxDelay` are
optional; `withRetry` applies `|| 2` and `|| 10000` to them. -/
structure RetryConfigL where
  attempts : Nat
  delay : Nat
  backoffMultiplier : Option Nat
  maxDelay : Option Nat
deriving Repr

/-- `config.backoffMultiplier || 2`. -/
def RetryConfigL.effMult (cfg : RetryConfigL) : Nat := jsOrNat cfg.backoffMultiplier 2

/-- `config.maxDelay || 10000`. -/
def RetryConfigL.effMax (cfg : RetryConfigL) : Nat := jsOrNat cfg.maxDelay 10000

/-- One iteration of the `for (attempt = 1; attempt <= attempts; attempt++)`
loop of `withRetry`.  `op t` is the outcome of the `t`-th call of `fn`; the
returned list records the argument of each `sleep` in order.  Leaving the
loop without returning reaches `throw lastError!` with `lastError` still
unassigned, which can only happen when the loop body never ran
(`attempts = 0`); it is modelled as a thrown placeholder.  Inside the loop
the source's last-attempt test `attempt === config.attempts` is equivalent
to `config.attempts ≤ attempt` because the loop guarantees
`attempt ≤ config.attempts`. -/
def withRetryGo (op : Nat → Except ApiErrL A) (cfg : RetryConfigL)
    (attempt : Nat) (delay : Nat) : Except ApiErrL A × List Nat :=
  if _h : cfg.attempts < attempt then
    (.error { message := "undefined", retryable := false }, [])
  else
    match op attempt with
    | .ok v => (.ok v, [])
    | .error e =>
      if _h2 : e.retryable = false ∨ cfg.attempts ≤ attempt then (.error e, [])
      else
        let rest := withRetryGo op cfg (attempt + 1)
          (min (delay * cfg.effMult) cfg.effMax)
        (rest.1, delay :: rest.2)
termination_by cfg.attempts - attempt
decreasing_by omega

/-- `withRetry(fn, config)`: run the retry loop from attempt 1 with the
configured initial delay.  Returns the final outcome paired with the list
of sleep durations, in order. -/
def withRetry (op : Nat → Except ApiErrL A) (cfg : RetryConfigL) :
    Except ApiErrL A × List Nat :=
  withRetryGo op cfg 1 cfg.delay

/-! ### Batch processor (`utils.ts`, `batchProcess`) -/

/-- The mutable state of one `batchProcess` call: the pre-allocated
`results` array (a hole is `none`), the `errors` accumulator, the sequence
of `onError(error, item, index)` invocations, the `completed` counter and
the sequence of `onProgress(completed, total)` invocations. -/
structure BatchAcc (α β : Type) where
  results : List (Option β)
  errors : List (Nat × String)
  onErrorLog : List (String × α × Nat)
  completed : Nat
  progressLog : List (Nat × Nat)
deriving Repr

/-- The settlement of one worker of a window: the body of the
`batch.map(async (item, batchIndex) => ...)` closure for
`actualIndex = idx`, run when that worker's promise settles.  The worker
function is modelled as a deterministic `Except` (the message of a thrown
error survives `ApiErrorFactory.fromUnknownError` unchanged). -/
def settleOne (f : α → Nat → Except String β) (items : List α) (total : Nat)
    (acc : BatchAcc α β) (idx : Nat) : BatchAcc α β :=
  match items[idx]? with
  | none => acc
  | some item =>
    match f item idx with
    | .ok r =>
      { acc with
        results := acc.results.set idx (some r)
        completed := acc.completed + 1
        progressLog := acc.progressLog ++ [(acc.completed + 1, total)] }
    | .error msg =>
      { acc with
        errors := acc.errors ++ [(idx, msg)]
        onErrorLog := acc.onErrorLog ++ [(msg, item, idx)]
        completed := acc.completed + 1
        progressLog := acc.progressLog ++ [(acc.completed + 1, total)] }

/-- Consecutive windows of size `c`: the index slices produced by
`items.slice(i, i + concurrency)` for `i = 0, c, 2c, ...`.  With
`concurrency = 0` the JS loop would never advance; that case is modelled
as producing no windows and is excluded by every theorem (`1 ≤ c`). -/
def chunks : Nat → List γ → List (List γ)
  | _, [] => []
  | 0, _ :: _ => []
  | c + 1, x :: xs => (x :: xs).take (c + 1) :: chunks (c + 1) ((x :: xs).drop (c + 1))
termination_by _ l => l.length
decreasing_by simp; omega

/-- The windows of item indices for `n` items at concurrency `c`. -/
def batchWindows (n c : Nat) : List (List Nat) := chunks c (List.range n)

/-- The state at the start of a run: `new Array(items.length)` and empty
accumulators. -/
def initAcc (n : Nat) : BatchAcc α β :=
  { results := List.replicate n none
    errors := []
    onErrorLog := []
    completed := 0
    progressLog := [] }

/-- A full `batchProcess` run under a settlement schedule `sched`: window
`w`'s workers all launch together and settle in the order `sched[w]` (a
permutation of that window's indices); `Promise.allSettled` makes the
next window wait for the previous one. -/
def batchRun (items : List α) (f : α → Nat → Except String β)
    (sched : List (List Nat)) : BatchAcc α β :=
  sched.foldl (fun acc ord => ord.foldl (settleOne f items items.length) acc)
    (initAcc items.length)

/-- A schedule is valid for `n` items at concurrency `c` when it settles
exactly the indices of each window, in any order within the window. -/
def ValidSched (n c : Nat) (sched : List (List Nat)) : Prop :=
  List.Forall₂ List.Perm sched (batchWindows n c)

/-- `batchProcess(items, processor, options)`: after all windows settle,
throw an aggregate error carrying the `(index, message)` pairs if any
worker failed, else return the results array. -/
def batchProcess (items : List α) (f : α → Nat → Except String β)
    (sched : List (List Nat)) :
    Except (List (Nat × String)) (List (Option β)) :=
  let acc := batchRun items f sched
  if acc.errors.isEmpty then .ok acc.results else .error acc.errors

/-! ### Image cache (`imageCache.ts`) -/

/-- `CacheResult` (the `transformations` field is omitted: the default
options configure none, so `generateTransformations` returns `[]`). -/
structure CacheResult where
  url : String
  cached : Bool
  size : Option Nat
  error : Option String
deriving Repr, DecidableEq

/-- A scheme character after the first: `[a-zA-Z0-9+.-]`. -/
def schemeChar (ch : Char) : Bool :=
  jsIsAlphanumChar ch || ch == '+' || ch == '-' || ch == '.'

/-- Whether a scheme delimiter `:` follows a run of scheme characters. -/
def hasSchemeColon : List Char → Bool
  | [] => false
  | ch :: rest => if ch == ':' then true else schemeChar ch && hasSchemeColon rest

/-- `isAbsoluteUrl` from `utils.ts` (`new URL(url)` does not throw):
modelled as "the string starts with a valid scheme followed by `:`",
which is the WHATWG acceptance criterion for the URLs exercised here. -/
def isAbsoluteUrl (s : String) : Bool :=
  match s.toList with
  | [] => false
  | c :: rest => c.isAlpha && hasSchemeColon rest

/-- Cut a path at the first `?` or `#`. -/
def stripQueryFrag (l : List Char) : List Char :=
  l.takeWhile (fun ch => ch != '?' && ch != '#')

/-- The `pathname` of `new URL(urlOrFilename, 'http://example.com')` for
the URL shapes the image cache receives: for an absolute URL with an
authority, the part after the host up to `?`/`#` (or `/` when empty); for
an opaque path, the part after the scheme; a relative reference resolves
against the base origin. -/
def pathnameOf (s : String) : String :=
  let cs := s.toList
  if isAbsoluteUrl s then
    let after := (cs.dropWhile (· ≠ ':')).drop 1
    match after with
    | '/' :: '/' :: rest =>
      let path := rest.dropWhile (fun ch => ch != '/' && ch != '?' && ch != '#')
      let pathChars := stripQueryFrag path
      if pathChars.isEmpty then "/" else String.mk pathChars
    | _ => String.mk (stripQueryFrag after)
  else String.mk ('/' :: stripQueryFrag cs)

/-- The characters after the last `.` of a character list, if any. -/
def afterLastDot : List Char → Option (List Char)
  | [] => none
  | c :: rest =>
    match afterLastDot rest with
    | some s => some s
    | none => if c == '.' then some rest else none

/-- `getFileExtension` from `utils.ts`: the lowercased pathname suffix
after its last dot, or `""` when the pathname has no dot. -/
def getFileExtension (s : String) : String :=
  match afterLastDot (pathnameOf s).toList with
  | none => ""
  | some ext => String.mk (ext.map Char.toLower)

/-- The image-cache options actually read by `cacheImage` /
`cacheImageNode` (`directory` and `transformations` only shape the local
path and the empty transformation list). -/
structure ImgCacheOptions where
  maxFileSize : Nat
  allowedExtensions : List String
  cacheDuration : Int
  skipExisting : Bool
deriving Repr

/-- `DEFAULT_OPTIONS` of `imageCache.ts`. -/
def defaultImgOptions : ImgCacheOptions :=
  { maxFileSize := 10 * 1024 * 1024
    allowedExtensions := ["jpg", "jpeg", "png", "gif", "webp", "avif", "svg"]
    cacheDuration := 24 * 60 * 60 * 1000
    skipExisting := true }

/-- The observable part of the `fetch` response for an image download:
`ok`/`status`/`statusText`, the parsed `content-length` header (absent
headers parse to the fallback `0` in the source), and the byte length of
the actually downloaded body. -/
structure FetchResp where
  ok : Bool
  status : Nat
  statusText : String
  contentLength : Option Nat
  bodySize : Nat
deriving Repr

/-- The external world `cacheImageNode` interacts with: the `node:crypto`
md5 hex digest, the pre-existing cached file's byte size (`fs.stat`) and
its metadata timestamp if both are readable, the wall clock, and the
network response for this URL. -/
structure NodeEnv where
  urlHash : String → String
  existingStat : Option Nat
  existingMeta : Option Int
  now : Int
  fetch : FetchResp

/-- Outcome of one `cacheImageNode` call: what was persisted to the asset
store (downloaded byte count plus the fresh metadata timestamp, or
nothing), and the returned/thrown result.  Thrown errors carry the
message only (the formatted byte sizes of the source's message are
elided). -/
structure NodeRun where
  persisted : Option (Nat × Int)
  result : Except String CacheResult
deriving Repr

/-- The `skipExisting` freshness probe of `cacheImageNode`: the existing
file's size when both the file and its metadata record exist and the
record is younger than `cacheDuration`. -/
def freshExisting (opts : ImgCacheOptions) (env : NodeEnv) : Option Nat :=
  if opts.skipExisting then
    match env.existingStat, env.existingMeta with
    | some sz, some cachedAt =>
      if env.now - cachedAt < opts.cacheDuration then some sz else none
    | _, _ => none
  else none

/-- `cacheImageNode(url)`: serve a fresh existing file when
`skipExisting` allows; otherwise download, reject when the declared
`content-length` exceeds `maxFileSize`, then persist the bytes and a
fresh timestamp record. -/
def cacheImageNode (opts : ImgCacheOptions) (env : NodeEnv) (url : String) :
    NodeRun :=
  let extension := getFileExtension url
  let filename := env.urlHash url ++ "." ++ extension
  match freshExisting opts env with
  | some sz =>
    { persisted := none
      result := .ok
        { url := "/images/" ++ filename, cached := true, size := some sz, error := none } }
  | none =>
    if env.fetch.ok = false then
      { persisted := none
        result := .error
          ("Failed to fetch image: " ++ toString env.fetch.status ++ " " ++
            env.fetch.statusText) }
    else
      let fileSize := env.fetch.contentLength.getD 0
      if fileSize > opts.maxFileSize then
        { persisted := none, result := .error "File too large" }
      else
        { persisted := some (env.fetch.bodySize, env.now)
          result := .ok
            { url := "/images/" ++ filename
              cached := true
              size := some env.fetch.bodySize
              error := none } }

/-- The external world of `cacheImageCloudflare`: whether the platform
cache already holds the URL, and the network response otherwise. -/
structure CfEnv where
  hit : Bool
  fetchOk : Bool
  status : Nat
  statusText : String
deriving Repr

/-- `cacheImageCloudflare(url)`. -/
def cacheImageCloudflare (env : CfEnv) (url : String) : Except String CacheResult :=
  if env.hit then
    .ok { url := url, cached := true, size := none, error := none }
  else if env.fetchOk = false then
    .error ("Failed to fetch image: " ++ toString env.status ++ " " ++ env.statusText)
  else
    .ok { url := url, cached := true, size := none, error := none }

/-- Which runtime `cacheImage` detects, and that runtime's external
world. -/
structure ImgEnv where
  isNode : Bool
  isCloudflareWorker : Bool
  node : NodeEnv
  cf : CfEnv

/-- `ImageCache.cacheImage(url)` (statistics counters elided): the outer
`try`/`catch` validates the URL and extension, dispatches on the runtime,
and converts every thrown error into
`{ url, cached: false, error: message }`.  The second component reports
what the node path persisted. -/
def cacheImage (opts : ImgCacheOptions) (env : ImgEnv) (url : String) :
    CacheResult × Option (Nat × Int) :=
  if url == "" || !isAbsoluteUrl url then
    ({ url := url, cached := false, size := none, error := some ("Invalid URL: " ++ url) },
      none)
  else
    let extension := getFileExtension url
    if !(opts.allowedExtensions.contains extension) then
      ({ url := url, cached := false, size := none,
          error := some ("Unsupported file type: " ++ extension) }, none)
    else if env.isNode then
      let run := cacheImageNode opts env.node url
      match run.result with
      | .ok r => (r, run.persisted)
      | .error msg =>
        ({ url := url, cached := false, size := none, error := some msg }, run.persisted)
    else if env.isCloudflareWorker then
      match cacheImageCloudflare env.cf url with
      | .ok r => (r, none)
      | .error msg =>
        ({ url := url, cached := false, size := none, error := some msg }, none)
    else
      ({ url := url, cached := false, size := none,
          error := some "Caching not supported in this environment" }, none)

/-! ### Data manager (`dataManager.ts`, `GenericDataManager.getData`)

`getCollection(type)` / `getPage(type)` / `getDetail(type, id)` all
delegate to `getData(key)` (with key `type` resp. `type + "/" + id`), so
the model is of `getData`.  JS object identity is made explicit by a heap:
every object the manager touches lives at an address, `staticData` and the
`generalCache` store addresses, and `deepClone` allocates a fresh address
holding the cloned tree.  A `getData` call is split into its atomic
synchronous runs: the prefix up to `await loadingPromise` (`dmCall`) and
the continuation that runs when the underlying `fetchData` promise
settles (`dmSettle`); between the two, arbitrary other calls and
settlements may interleave. -/

/-- Mark the `fetchData` promise `pid` as settled in the fetch log. -/
def markSettled (l : List (Nat × String × Bool)) (pid : Nat) :
    List (Nat × String × Bool) :=
  l.map (fun f => if f.1 = pid then (f.1, f.2.1, true) else f)

/-- Point update of a function-backed map. -/
def fupdate (f : String → Option γ) (k : String) (v : Option γ) :
    String → Option γ :=
  fun k' => if k' = k then v else f k'

/-- The manager's state: the heap allocator, the `staticData` snapshot map
and the `loadingPromises` in-flight map (both storing heap addresses resp.
promise ids), the `generalCache` singleton (storing addresses), the log of
`fetchData` calls `(promiseId, key, settled)` issued so far — one entry
per outbound HTTP request — and the promise-id allocator. -/
structure DMState where
  next : Nat
  heap : Nat → Json
  staticData : String → Option Nat
  loading : String → Option Nat
  cache : AdvancedCache Nat
  fetches : List (Nat × String × Bool)
  nextPid : Nat

/-- Allocate a fresh heap cell holding `j`. -/
def DMState.alloc (s : DMState) (j : Json) : DMState × Nat :=
  ({ s with heap := fun a => if a = s.next then j else s.heap a, next := s.next + 1 },
    s.next)

/-- What the synchronous prefix of a `getData(key)` call produces:
`value a` — resolved immediately with the object at address `a`;
`join pid` — returned the already-stored pending `fetchData` promise;
`started pid` — registered a new `fetchData` promise and now awaits it. -/
inductive CallRes where
  | value (a : Nat)
  | join (pid : Nat)
  | started (pid : Nat)
deriving Repr, DecidableEq

/-- The synchronous prefix of `getData(key)`: snapshot check (returning a
deep copy), in-flight check (returning the stored promise itself), cache
check (adopting the cached object and returning a deep copy of it), and
otherwise registration of a new fetch in `loadingPromises` before any
suspension point. -/
def dmCall (s : DMState) (k : String) (now : Int) : DMState × CallRes :=
  match s.staticData k with
  | some a =>
    let r := s.alloc (deepClone (s.heap a))
    (r.1, .value r.2)
  | none =>
    match s.loading k with
    | some pid => (s, .join pid)
    | none =>
      let r := s.cache.get ("static_" ++ k) now
      let s1 := { s with cache := r.1 }
      match r.2 with
      | some a =>
        let s2 := { s1 with staticData := fupdate s1.staticData k (some a) }
        let r2 := s2.alloc (deepClone (s2.heap a))
        (r2.1, .value r2.2)
      | none =>
        let pid := s1.nextPid
        ({ s1 with
            loading := fupdate s1.loading k (some pid)
            fetches := s1.fetches ++ [(pid, k, false)]
            nextPid := s1.nextPid + 1 },
          .started pid)

/-- How the remote API answers one `fetchData` request: a parsed JSON
body, or a rejection (already wrapped by `ApiErrorFactory`, whose message
is kept). -/
inductive FetchOutcome where
  | success (j : Json)
  | failure (msg : String)

/-- The settlement of the fetch `pid` for key `k`: the state afterwards,
what the raw `fetchData` promise itself settles to (this is what a
deduplicated second caller awaits), and what the initiating `getData`
call resolves to or throws.  On success the response object is allocated,
stored in `staticData`, mirrored into the cache with TTL `5 * 60 * 1000`,
and the initiator gets a deep copy; on failure with a registered fallback
the freshly built fallback object is stored and returned to the initiator
as-is; on failure without one the initiator rethrows.  The `finally`
clause deletes the in-flight entry in the same synchronous run. -/
def dmSettle (s : DMState) (k : String) (pid : Nat) (out : FetchOutcome)
    (fb : String → Option Json) (now : Int) :
    DMState × Except String Nat × Except String Nat :=
  match out with
  | .success j =>
    let r1 := s.alloc j
    let s2 := { r1.1 with
      staticData := fupdate r1.1.staticData k (some r1.2)
      cache := r1.1.cache.set ("static_" ++ k) r1.2 (some (5 * 60 * 1000)) now }
    let r2 := s2.alloc (deepClone j)
    let s4 := { r2.1 with
      loading := fupdate r2.1.loading k none
      fetches := markSettled r2.1.fetches pid }
    (s4, .ok r1.2, .ok r2.2)
  | .failure msg =>
    match fb k with
    | some jf =>
      let r1 := s.alloc jf
      let s2 := { r1.1 with
        staticData := fupdate r1.1.staticData k (some r1.2)
        loading := fupdate r1.1.loading k none
        fetches := markSettled r1.1.fetches pid }
      (s2, .error msg, .ok r1.2)
    | none =>
      let s2 := { s with
        loading := fupdate s.loading k none
        fetches := markSettled s.fetches pid }
      (s2, .error msg, .error msg)

/-- The manager's state at construction time. -/
def dmInit : DMState :=
  { next := 0
    heap := fun _ => .null
    staticData := fun _ => none
    loading := fun _ => none
    cache := generalCacheInit
    fetches := []
    nextPid := 0 }

/-- One atomic synchronous run of manager code: the prefix of some
`getData` call, or the continuation of some in-flight fetch settling.
`fb` is the manager's (constructor-supplied) fallback-factory map. -/
inductive DMStep (fb : String → Option Json) : DMState → DMState → Prop where
  | call (s : DMState) (k : String) (now : Int) :
      DMStep fb s (dmCall s k now).1
  | settle (s : DMState) (k : String) (pid : Nat) (out : FetchOutcome) (now : Int)
      (h : s.loading k = some pid) :
      DMStep fb s (dmSettle s k pid out fb now).1

/-- States the manager can actually be in. -/
def DMReachable (fb : String → Option Json) (s : DMState) : Prop :=
  Relation.ReflTransGen (DMStep fb) dmInit s

/-- The not-yet-settled entries for key `k` of a fetch log. -/
def unsettledFor (l : List (Nat × String × Bool)) (k : String) :
    List (Nat × String × Bool) :=
  l.filter (fun f => f.2.1 == k && f.2.2 == false)

/-- The not-yet-settled `fetchData` requests for key `k`: each is one
outbound HTTP request still in flight. -/
def inflight (s : DMState) (k : String) : List (Nat × String × Bool) :=
  unsettledFor s.fetches k

/-- The state invariant of the manager, preserved by every step:
a key being loaded has no snapshot yet; the in-flight requests for a key
are exactly the one recorded in `loadingPromises` (hence never two);
promise ids come from the allocator; no two keys share an in-flight
promise; and every stored address (snapshots and cache) is allocated. -/
structure DMInv (s : DMState) : Prop where
  loadStatic : ∀ k pid, s.loading k = some pid → s.staticData k = none
  loadFetch : ∀ k,
    (match s.loading k with
     | some pid => inflight s k = [(pid, k, false)]
     | none => inflight s k = [])
  pidBound : ∀ f ∈ s.fetches, f.1 < s.nextPid
  loadInj : ∀ k k' pid, s.loading k = some pid → s.loading k' = some pid → k = k'
  staticLt : ∀ k a, s.staticData k = some a → a < s.next
  cacheLt : ∀ key e, mapGet s.cache.entries key = some e → e.data < s.next

/-! ### Concrete instances used by counterexamples and witnesses -/

/-- Concrete retry configuration exhibiting an uncapped first sleep:
`delay` exceeds `maxDelay`. -/
def retryCfgLargeDelay : RetryConfigL :=
  { attempts := 3, delay := 20000, backoffMultiplier := some 2, maxDelay := some 10000 }

/-- An operation failing retryably on attempts 1 and 2 and succeeding on
attempt 3. -/
def retryOpFailTwice : Nat → Except ApiErrL Nat :=
  fun t => if t < 3 then .error { message := "Network error", retryable := true } else .ok 42

/-- Concrete configuration for the `C5_retry_backoff` witness. -/
def c5wCfg : RetryConfigL :=
  { attempts := 3, delay := 1000, backoffMultiplier := none, maxDelay := none }

/-- Fails retryably on attempts 1 and 2, succeeds on attempt 3. -/
def c5wOp : Nat → Except ApiErrL Nat :=
  fun t => if t < 3 then .error { message := "Network error", retryable := true } else .ok 7

/-- Fails non-retryably at once. -/
def c5wBad : Nat → Except ApiErrL Nat :=
  fun _ => .error { message := "Resource not found", retryable := false }

/-- Node environment of the `C9` counterexample: no pre-existing file, a
`200 OK` response with no `content-length` header whose body is 20 MiB —
twice the configured `maxFileSize`. -/
def c9Env : NodeEnv :=
  { urlHash := fun _ => "abc"
    existingStat := none
    existingMeta := none
    now := 0
    fetch := { ok := true, status := 200, statusText := "OK",
               contentLength := none, bodySize := 20971520 } }

/-- The `(index, message)` pair item `i` contributes to the `errors`
accumulator (nothing when it succeeds or is out of range). -/
def errOf (f : α → Nat → Except String β) (items : List α) (i : Nat) :
    Option (Nat × String) :=
  match items[i]? with
  | some it =>
    match f it i with
    | .ok _ => none
    | .error msg => some (i, msg)
  | none => none

/-- The `onError(error, item, index)` invocation item `i` contributes. -/
def onErrOf (f : α → Nat → Except String β) (items : List α) (i : Nat) :
    Option (String × α × Nat) :=
  match items[i]? with
  | some it =>
    match f it i with
    | .ok _ => none
    | .error msg => some (msg, it, i)
  | none => none

/-- Every address stored in a cache is below the allocation bound. -/
def cacheBounded (c : AdvancedCache Nat) (n : Nat) : Prop :=
  ∀ key e, mapGet c.entries key = some e → e.data < n

/-- Fallback-factory map of the data-manager counterexamples: key `"x"`
has a registered fallback. -/
def c1fb : String → Option Json :=
  fun k => if k = "x" then some (Json.str "fallback home") else none

end GICA

mutual

theorem GICA.deepClone_eq : ∀ j : GICA.Json, GICA.deepClone j = j
  | .null => rfl
  | .bool _ => rfl
  | .num _ => rfl
  | .str _ => rfl
  | .arr items => by rw [GICA.deepClone, GICA.deepCloneList_eq items]
  | .obj fields => by rw [GICA.deepClone, GICA.deepCloneFields_eq fields]

theorem GICA.deepCloneList_eq : ∀ l : List GICA.Json, GICA.deepCloneList l = l
  | [] => rfl
  | j :: rest => by
      rw [GICA.deepCloneList, GICA.deepClone_eq j, GICA.deepCloneList_eq rest]

theorem GICA.deepCloneFields_eq :
    ∀ l : List (String × GICA.Json), GICA.deepCloneFields l = l
  | [] => rfl
  | (k, v) :: rest => by
      rw [GICA.deepCloneFields, GICA.deepClone_eq v, GICA.deepCloneFields_eq rest]

end

namespace GICA

theorem mapGet_mapReplace_self (m : List (String × β)) (k : String) (v : β)
    (h : mapHas m k = true) : mapGet (mapReplace m k v) k = some v := by
  induction m with
  | nil => simp [mapHas] at h
  | cons p rest ih =>
    by_cases hp : p.1 == k
    · simp [mapReplace, hp, mapGet]
    · simp only [mapReplace, hp, Bool.false_eq_true, if_neg, not_false_iff, mapGet]
      exact ih (by simpa [mapHas, hp] using h)

theorem mapGet_append_single (m : List (String × β)) (k : String) (v : β)
    (h : mapHas m k = false) : mapGet (m ++ [(k, v)]) k = some v := by
  induction m with
  | nil => simp [mapGet]
  | cons p rest ih =>
    simp only [mapHas, Bool.or_eq_false_iff] at h
    simp only [List.cons_append, mapGet, h.1, Bool.false_eq_true, if_neg, not_false_iff]
    exact ih h.2

theorem mapGet_mapSet_self (m : List (String × β)) (k : String) (v : β) :
    mapGet (mapSet m k v) k = some v := by
  unfold mapSet
  by_cases h : mapHas m k
  · rw [if_pos h]; exact mapGet_mapReplace_self m k v h
  · rw [if_neg h]
    exact mapGet_append_single m k v (by simpa using h)

theorem mapGet_mapReplace_ne (m : List (String × β)) (k k' : String) (v : β)
    (hne : k' ≠ k) : mapGet (mapReplace m k v) k' = mapGet m k' := by
  induction m with
  | nil => rfl
  | cons p rest ih =>
    by_cases hp : p.1 == k
    · have hpk : p.1 = k := by simpa using hp
      have hkk : ¬(k == k') := by simpa using fun hc => hne hc.symm
      simp [mapReplace, hp, mapGet, hkk, hpk]
    · simp only [mapReplace, hp, Bool.false_eq_true, if_neg, not_false_iff, mapGet]
      by_cases hq : p.1 == k'
      · simp [hq]
      · simp [hq, ih]

theorem mapGet_mapSet_ne (m : List (String × β)) (k k' : String) (v : β)
    (hne : k' ≠ k) : mapGet (mapSet m k v) k' = mapGet m k' := by
  unfold mapSet
  by_cases h : mapHas m k
  · rw [if_pos h]; exact mapGet_mapReplace_ne m k k' v hne
  · rw [if_neg h]
    induction m with
    | nil => simp [mapGet, show ¬(k == k') by simpa using fun hc => hne hc.symm]
    | cons p rest ih =>
      simp only [List.cons_append, mapGet]
      by_cases hq : p.1 == k'
      · simp [hq]
      · simp only [hq, Bool.false_eq_true, if_neg, not_false_iff]
        exact ih (fun hc => h (by simp [mapHas] at hc ⊢; exact Or.inr hc))

theorem mapGet_mapDelete_self (m : List (String × β)) (k : String) :
    mapGet (mapDelete m k) k = none := by
  induction m with
  | nil => rfl
  | cons p rest ih =>
    by_cases hp : p.1 == k
    · have hpk : p.1 = k := by simpa using hp
      simpa [mapDelete, List.filter_cons, hp, hpk] using ih
    · have hp' : ¬p.1 = k := by simpa using hp
      simpa [mapDelete, List.filter_cons, mapGet, hp, hp'] using ih

theorem mapGet_mapDelete_ne (m : List (String × β)) (k k' : String)
    (hne : k' ≠ k) : mapGet (mapDelete m k) k' = mapGet m k' := by
  induction m with
  | nil => rfl
  | cons p rest ih =>
    by_cases hp : p.1 == k
    · have hpk : p.1 = k := by simpa using hp
      have hnq : ¬(p.1 == k') := by
        simp [hpk]
        exact fun hc => hne hc.symm
      have hkk : ¬k = k' := fun hc => hne hc.symm
      simpa [mapDelete, List.filter_cons, hp, hpk, mapGet, hnq, hkk] using ih
    · have hp' : ¬p.1 = k := by simpa using hp
      by_cases hq : p.1 == k'
      · simp [mapDelete, List.filter_cons, hp, hp', mapGet, hq]
      · simpa [mapDelete, List.filter_cons, mapGet, hp, hp', hq] using ih

/-! ## Claims -/

/-- **C10.** `ApiCache.generateKey` is not injective: `"a/b"` and `"a.b"`
both map to `"a_b"`, and a response cached for the one endpoint is served
as a hit for a GET of the other. -/
theorem C10_generateKey_collision :
    ApiCache.generateKey "a/b" [] = ApiCache.generateKey "a.b" [] ∧
    "a/b" ≠ "a.b" ∧
    (ApiCache.getApiResponse
        (ApiCache.setApiResponse (apiCacheInit (α := Json)) "a/b" (Json.str "resp") []
          (some 300000) 0)
        "a.b" [] 0).2 = some (Json.str "resp") := by
  refine ⟨by decide, by decide, ?_⟩
  simp [ApiCache.getApiResponse, ApiCache.setApiResponse, ApiCache.generateKey,
    apiCacheInit, AdvancedCache.new, AdvancedCache.set, AdvancedCache.get,
    jsOrInt, jsOrNat, mapHas, mapSet, mapGet, jsIsAlphanumChar]

/-- **C6, counterexample.** `set(k, v, 0)` followed immediately by
`get(k)` returns the value, not absent: a zero TTL is falsy in
`ttl || this.defaultTtl` and silently becomes the default TTL. -/
theorem C6_zero_ttl_counterexample :
    (((AdvancedCache.new none none (α := Nat)).set "k" 7 (some 0) 0).get "k" 0).2
      = some 7 := rfl

/-- **C6, amended.** A negative TTL behaves as immediate expiry (stored
but absent at every instant from the store time on), while a TTL of zero
is treated as unset: the default TTL applies, so the value is visible
until that default TTL passes. -/
theorem C6_ttl_amended (c : AdvancedCache α) (k : String) (v : α) (t : Int)
    (now m : Int) :
    (t < 0 → now ≤ m → ((c.set k v (some t) now).get k m).2 = none) ∧
    (((c.set k v (some 0) now).get k m).2
      = if m - now > c.defaultTtl then none else some v) := by
  constructor
  · intro ht hm
    have hne : t ≠ 0 := by omega
    unfold AdvancedCache.set AdvancedCache.get
    simp only [mapGet_mapSet_self, jsOrInt, hne, if_neg, if_false]
    have : m - now > t := by omega
    simp [this]
  · unfold AdvancedCache.set AdvancedCache.get
    simp only [mapGet_mapSet_self, jsOrInt, if_pos]
    split <;> simp_all

/-- Witness for `C6_ttl_amended` at a concrete cache, key and clock. -/
theorem C6_ttl_amended_witness :
    (((generalCacheInit (α := Nat)).set "k" 7 (some (-5)) 0).get "k" 3).2 = none ∧
    (((generalCacheInit (α := Nat)).set "k" 7 (some 0) 0).get "k" 3).2 = some 7 := by
  have h := C6_ttl_amended (generalCacheInit (α := Nat)) "k" 7 (-5) 0 3
  refine ⟨h.1 (by decide) (by decide), ?_⟩
  have h2 := (C6_ttl_amended (generalCacheInit (α := Nat)) "k" 7 (-5) 0 3).2
  rw [h2]
  decide

/-- **C5, counterexample.** With `delay = 20000 > maxDelay = 10000` and an
operation that fails retryably twice and then succeeds (`attempts = 3`,
exactly the claim's scenario), `withRetry` succeeds after the claimed
`n - 1 = 2` sleeps, but the sleep sequence `[20000, 10000]` is strictly
decreasing and its first element exceeds `maxDelay`: the first sleep is
the raw configured delay, which the code never caps. -/
theorem C5_first_sleep_uncapped :
    (withRetry retryOpFailTwice retryCfgLargeDelay).1 = .ok 42 ∧
    (withRetry retryOpFailTwice retryCfgLargeDelay).2 = [20000, 10000] ∧
    ¬ List.Chain' (· ≤ ·) (withRetry retryOpFailTwice retryCfgLargeDelay).2 ∧
    ¬ (∀ d ∈ (withRetry retryOpFailTwice retryCfgLargeDelay).2,
        d ≤ retryCfgLargeDelay.effMax) := by
  have h : withRetry retryOpFailTwice retryCfgLargeDelay = (.ok 42, [20000, 10000]) := by
    simp [withRetry, withRetryGo, retryCfgLargeDelay, retryOpFailTwice,
      RetryConfigL.effMult, RetryConfigL.effMax, jsOrNat]
  rw [h]
  refine ⟨rfl, rfl, ?_, ?_⟩
  · intro hc
    have := (List.chain'_cons.mp hc).1
    omega
  · intro hall
    have := hall 20000 (by simp)
    have hm : retryCfgLargeDelay.effMax = 10000 := by decide
    omega

theorem RetryConfigL.one_le_effMult (cfg : RetryConfigL) : 1 ≤ cfg.effMult := by
  unfold RetryConfigL.effMult jsOrNat
  split <;> omega

theorem withRetryGo_spec (op : Nat → Except ApiErrL A) (cfg : RetryConfigL) (v : A) :
    ∀ k a d, 1 ≤ a → a + k = cfg.attempts →
    (∀ t, a ≤ t → t < cfg.attempts → ∃ e, op t = .error e ∧ e.retryable = true) →
    op cfg.attempts = .ok v →
    d ≤ cfg.effMax →
    (withRetryGo op cfg a d).1 = .ok v ∧
    (withRetryGo op cfg a d).2.length = k ∧
    (withRetryGo op cfg a d).2.head? = (if k = 0 then none else some d) ∧
    List.Chain' (· ≤ ·) (withRetryGo op cfg a d).2 ∧
    (∀ x ∈ (withRetryGo op cfg a d).2, x ≤ cfg.effMax) := by
  intro k
  induction k with
  | zero =>
    intro a d ha hk hfail hok hd
    have hattempts : cfg.attempts = a := by omega
    rw [withRetryGo]
    rw [dif_neg (by omega)]
    rw [hattempts] at hok
    rw [hok]
    simp
  | succ k ih =>
    intro a d ha hk hfail hok hd
    obtain ⟨e, hoe, her⟩ := hfail a (le_refl a) (by omega)
    rw [withRetryGo]
    rw [dif_neg (by omega)]
    rw [hoe]
    simp only []
    rw [dif_neg (by simp [her]; omega)]
    have hrest := ih (a + 1) (min (d * cfg.effMult) cfg.effMax) (by omega) (by omega)
      (fun t h1 h2 => hfail t (by omega) h2) hok (min_le_right _ _)
    obtain ⟨r1, r2, r3, r4, r5⟩ := hrest
    refine ⟨r1, by simpa using r2, by simp, ?_, ?_⟩
    · rw [List.chain'_cons']
      refine ⟨?_, r4⟩
      intro b hb
      rw [r3] at hb
      by_cases hk0 : k = 0
      · simp [hk0] at hb
      · simp [hk0] at hb
        subst hb
        refine le_min ?_ hd
        calc d = d * 1 := by omega
        _ ≤ d * cfg.effMult := Nat.mul_le_mul_left d cfg.one_le_effMult
    · intro x hx
      simp at hx
      rcases hx with hx | hx
      · omega
      · exact r5 x hx

/-- **C5, amended.** Provided the configured initial delay does not
already exceed the effective `maxDelay`, an operation failing `n - 1`
times retryably and then succeeding returns the success value with
exactly `n - 1` sleeps, the first equal to the configured delay, the
sequence non-decreasing and capped at `maxDelay`; and an operation whose
first failure is non-retryable fails on the first attempt with no sleep.
(The counterexample shows the proviso is needed: the first sleep is the
raw configured delay, which the code never caps.) -/
theorem C5_retry_backoff (op op2 : Nat → Except ApiErrL A) (cfg : RetryConfigL)
    (n : Nat) (v : A) (e : ApiErrL)
    (hn : cfg.attempts = n) (h1 : 1 ≤ n)
    (hfail : ∀ t, 1 ≤ t → t < n → ∃ err, op t = .error err ∧ err.retryable = true)
    (hok : op n = .ok v)
    (hcap : cfg.delay ≤ cfg.effMax)
    (h2 : op2 1 = .error e) (h2r : e.retryable = false) :
    (withRetry op cfg).1 = .ok v ∧
    (withRetry op cfg).2.length = n - 1 ∧
    (2 ≤ n → (withRetry op cfg).2.head? = some cfg.delay) ∧
    List.Chain' (· ≤ ·) (withRetry op cfg).2 ∧
    (∀ x ∈ (withRetry op cfg).2, x ≤ cfg.effMax) ∧
    withRetry op2 cfg = (.error e, []) := by
  subst hn
  have h := withRetryGo_spec op cfg v (cfg.attempts - 1) 1 cfg.delay (le_refl 1)
    (by omega) (fun t ht1 ht2 => hfail t ht1 ht2) hok hcap
  obtain ⟨r1, r2, r3, r4, r5⟩ := h
  refine ⟨r1, r2, ?_, r4, r5, ?_⟩
  · intro h2n
    rw [withRetry] at *
    rw [r3]
    rw [if_neg (by omega)]
  · rw [withRetry, withRetryGo]
    rw [dif_neg (by omega)]
    rw [h2]
    simp only []
    rw [dif_pos (Or.inl h2r)]

/-- Witness for `C5_retry_backoff` at a concrete configuration. -/
theorem C5_retry_backoff_witness :
    (withRetry c5wOp c5wCfg).1 = .ok 7 ∧
    (withRetry c5wOp c5wCfg).2.length = 3 - 1 ∧
    (2 ≤ 3 → (withRetry c5wOp c5wCfg).2.head? = some c5wCfg.delay) ∧
    List.Chain' (· ≤ ·) (withRetry c5wOp c5wCfg).2 ∧
    (∀ x ∈ (withRetry c5wOp c5wCfg).2, x ≤ c5wCfg.effMax) ∧
    withRetry c5wBad c5wCfg
      = (.error { message := "Resource not found", retryable := false }, []) := by
  exact C5_retry_backoff c5wOp c5wBad c5wCfg 3 7
    { message := "Resource not found", retryable := false }
    rfl (by omega)
    (fun t h1 h2 => ⟨{ message := "Network error", retryable := true },
      by simp [c5wOp, h2], rfl⟩)
    (by simp [c5wOp]) (by decide) rfl rfl

theorem cacheImageNode_ok_cached (opts : ImgCacheOptions) (env : NodeEnv)
    (url : String) (r : CacheResult)
    (h : (cacheImageNode opts env url).result = .ok r) : r.cached = true := by
  unfold cacheImageNode at h
  simp only [] at h
  split at h
  · simp only [Except.ok.injEq] at h
    subst h
    rfl
  · split at h
    · exact absurd h (by simp)
    · split at h
      · exact absurd h (by simp)
      · simp only [Except.ok.injEq] at h
        subst h
        rfl

theorem cacheImageCloudflare_ok_cached (env : CfEnv) (url : String) (r : CacheResult)
    (h : cacheImageCloudflare env url = .ok r) : r.cached = true := by
  unfold cacheImageCloudflare at h
  split at h
  · simp only [Except.ok.injEq] at h
    subst h
    rfl
  · split at h
    · exact absurd h (by simp)
    · simp only [Except.ok.injEq] at h
      subst h
      rfl

/-- **C8.** `cacheImage` never throws; every outcome is either a cache
success or a degradation carrying the original input URL, `cached =
false` and an error message; in particular the three validation failures
and any failure of the node caching path produce exactly that degraded
result. -/
theorem C8_cacheImage_degrades (opts : ImgCacheOptions) (env : ImgEnv) (url : String) :
    ((cacheImage opts env url).1.cached = true ∨
      ((cacheImage opts env url).1.url = url ∧
        (cacheImage opts env url).1.cached = false ∧
        (cacheImage opts env url).1.error.isSome)) ∧
    (url = "" ∨ isAbsoluteUrl url = false ∨
        opts.allowedExtensions.contains (getFileExtension url) = false →
      (cacheImage opts env url).1.url = url ∧
      (cacheImage opts env url).1.cached = false ∧
      (cacheImage opts env url).1.error.isSome) ∧
    (∀ msg, env.isNode = true →
      (cacheImageNode opts env.node url).result = .error msg →
      url ≠ "" → isAbsoluteUrl url = true →
      opts.allowedExtensions.contains (getFileExtension url) = true →
      (cacheImage opts env url).1
        = { url := url, cached := false, size := none, error := some msg }) := by
  refine ⟨?_, ?_, ?_⟩
  · simp only [cacheImage]
    by_cases h0 : (url == "" || !isAbsoluteUrl url) = true
    · rw [if_pos h0]
      exact Or.inr ⟨rfl, rfl, rfl⟩
    · rw [if_neg h0]
      by_cases hext : (!opts.allowedExtensions.contains (getFileExtension url)) = true
      · rw [if_pos hext]
        exact Or.inr ⟨rfl, rfl, rfl⟩
      · rw [if_neg hext]
        by_cases hn : env.isNode = true
        · rw [if_pos hn]
          cases hres : (cacheImageNode opts env.node url).result with
          | ok r =>
            simp only [hres]
            exact Or.inl (cacheImageNode_ok_cached opts env.node url r hres)
          | error msg =>
            simp [hres]
        · rw [if_neg hn]
          by_cases hcf : env.isCloudflareWorker = true
          · rw [if_pos hcf]
            cases hres : cacheImageCloudflare env.cf url with
            | ok r =>
              simp only [hres]
              exact Or.inl (cacheImageCloudflare_ok_cached env.cf url r hres)
            | error msg =>
              simp [hres]
          · rw [if_neg hcf]
            exact Or.inr ⟨rfl, rfl, rfl⟩
  · intro hbad
    simp only [cacheImage]
    by_cases h0 : (url == "" || !isAbsoluteUrl url) = true
    · rw [if_pos h0]
      exact ⟨rfl, rfl, rfl⟩
    · rw [if_neg h0]
      have hv1 : ¬url = "" := by
        intro hc
        apply h0
        simp [hc]
      have hv2 : isAbsoluteUrl url = true := by
        cases hb : isAbsoluteUrl url with
        | false => exact absurd (by simp [hb]) h0
        | true => rfl
      rcases hbad with hbad | hbad | hbad
      · exact absurd hbad hv1
      · rw [hv2] at hbad
        cases hbad
      · rw [if_pos (by rw [hbad]; rfl)]
        exact ⟨rfl, rfl, rfl⟩
  · intro msg hnode herr hne habs hext
    simp only [cacheImage]
    rw [if_neg ?hvalid]
    case hvalid =>
      simp only [Bool.or_eq_true, Bool.not_eq_true', beq_iff_eq, habs]
      intro hc
      rcases hc with hc | hc
      · exact hne hc
      · cases hc
    rw [if_neg (by rw [hext]; simp)]
    rw [if_pos hnode]
    simp only [herr]

/-- **C9, counterexample.** A download whose actual byte size (20 MiB)
exceeds `maxFileSize` (10 MiB) but whose `content-length` header is
absent is persisted with a timestamp record and reported as a cache
success: only the declared size is ever checked. -/
theorem C9_actual_size_unchecked :
    (cacheImageNode defaultImgOptions c9Env "https://cdn.example.com/pic.jpg").persisted
      = some (20971520, 0) ∧
    20971520 > defaultImgOptions.maxFileSize ∧
    (cacheImageNode defaultImgOptions c9Env "https://cdn.example.com/pic.jpg").result
      = .ok { url := "/images/abc.jpg", cached := true,
              size := some 20971520, error := none } := by
  refine ⟨?_, by decide, ?_⟩ <;> rfl

/-- **C9, amended.** On a download (no fresh pre-existing file, response
`ok`), `cacheImageNode` rejects without persisting anything iff the
declared `content-length` (`0` when the header is absent) exceeds
`maxFileSize`; when the declared size is within the limit, the actual
bytes are persisted together with a fresh timestamp record regardless of
their number. -/
theorem C9_declared_size_gate (opts : ImgCacheOptions) (env : NodeEnv) (url : String)
    (hmiss : opts.skipExisting = false ∨ env.existingStat = none ∨
      env.existingMeta = none ∨
      (∃ sz ca, env.existingStat = some sz ∧ env.existingMeta = some ca ∧
        ¬(env.now - ca < opts.cacheDuration)))
    (hok : env.fetch.ok = true) :
    (env.fetch.contentLength.getD 0 > opts.maxFileSize →
      (cacheImageNode opts env url).persisted = none ∧
      ∃ m, (cacheImageNode opts env url).result = .error m) ∧
    (env.fetch.contentLength.getD 0 ≤ opts.maxFileSize →
      (cacheImageNode opts env url).persisted = some (env.fetch.bodySize, env.now)) := by
  have hfresh : freshExisting opts env = none := by
    unfold freshExisting
    by_cases hskip : opts.skipExisting = true
    · rw [if_pos hskip]
      rcases hmiss with h | h | h | ⟨sz, ca, h1, h2, h3⟩
      · rw [h] at hskip
        exact absurd hskip (by simp)
      · rw [h]
      · rw [h]
        cases env.existingStat <;> rfl
      · rw [h1, h2]
        simp [h3]
    · rw [if_neg hskip]
  constructor
  · intro hbig
    unfold cacheImageNode
    simp only [hfresh]
    rw [if_neg (by simp [hok])]
    rw [if_pos hbig]
    exact ⟨rfl, "File too large", rfl⟩
  · intro hsmall
    unfold cacheImageNode
    simp only [hfresh]
    rw [if_neg (by simp [hok])]
    rw [if_neg (by omega)]

/-- Witness for `C9_declared_size_gate`: a declared 1 KiB download is
persisted; a declared 20 MiB download is rejected without persisting. -/
theorem C9_declared_size_gate_witness :
    (cacheImageNode defaultImgOptions
        { c9Env with fetch := { c9Env.fetch with contentLength := some 1024, bodySize := 1024 } }
        "https://cdn.example.com/pic.jpg").persisted = some (1024, 0) ∧
    (cacheImageNode defaultImgOptions
        { c9Env with fetch := { c9Env.fetch with contentLength := some 20971520 } }
        "https://cdn.example.com/pic.jpg").persisted = none := by
  constructor
  · exact (C9_declared_size_gate defaultImgOptions
      { c9Env with fetch := { c9Env.fetch with contentLength := some 1024, bodySize := 1024 } }
      "https://cdn.example.com/pic.jpg" (Or.inr (Or.inl rfl)) rfl).2 (by decide)
  · exact ((C9_declared_size_gate defaultImgOptions
      { c9Env with fetch := { c9Env.fetch with contentLength := some 20971520 } }
      "https://cdn.example.com/pic.jpg" (Or.inr (Or.inl rfl)) rfl).1 (by decide)).1

/-- Witness for `C8_cacheImage_degrades`: a relative URL in a browser-like
environment degrades to the original URL with an error. -/
theorem C8_cacheImage_degrades_witness :
    ((cacheImage defaultImgOptions
        { isNode := false, isCloudflareWorker := false, node := c9Env,
          cf := { hit := false, fetchOk := true, status := 200, statusText := "OK" } }
        "images/pic.jpg").1.url = "images/pic.jpg" ∧
      (cacheImage defaultImgOptions
        { isNode := false, isCloudflareWorker := false, node := c9Env,
          cf := { hit := false, fetchOk := true, status := 200, statusText := "OK" } }
        "images/pic.jpg").1.cached = false ∧
      (cacheImage defaultImgOptions
        { isNode := false, isCloudflareWorker := false, node := c9Env,
          cf := { hit := false, fetchOk := true, status := 200, statusText := "OK" } }
        "images/pic.jpg").1.error.isSome) := by
  exact (C8_cacheImage_degrades defaultImgOptions
    { isNode := false, isCloudflareWorker := false, node := c9Env,
      cf := { hit := false, fetchOk := true, status := 200, statusText := "OK" } }
    "images/pic.jpg").2.1 (Or.inr (Or.inl (by decide)))

theorem foldl_settle_errors (f : α → Nat → Except String β) (items : List α) (n : Nat) :
    ∀ (l : List Nat) (acc : BatchAcc α β),
    (l.foldl (settleOne f items n) acc).errors
      = acc.errors ++ l.filterMap (errOf f items) := by
  intro l
  induction l with
  | nil => intro acc; simp
  | cons i l ih =>
    intro acc
    rw [List.foldl_cons, ih, List.filterMap_cons]
    unfold settleOne errOf
    cases hit : items[i]? with
    | none => simp
    | some it =>
      cases hf : f it i with
      | ok v => simp [hf]
      | error msg => simp [hf]

theorem foldl_settle_onErrorLog (f : α → Nat → Except String β) (items : List α) (n : Nat) :
    ∀ (l : List Nat) (acc : BatchAcc α β),
    (l.foldl (settleOne f items n) acc).onErrorLog
      = acc.onErrorLog ++ l.filterMap (onErrOf f items) := by
  intro l
  induction l with
  | nil => intro acc; simp
  | cons i l ih =>
    intro acc
    rw [List.foldl_cons, ih, List.filterMap_cons]
    unfold settleOne onErrOf
    cases hit : items[i]? with
    | none => simp
    | some it =>
      cases hf : f it i with
      | ok v => simp [hf]
      | error msg => simp [hf]

theorem settle_results_length (f : α → Nat → Except String β) (items : List α)
    (n : Nat) (acc : BatchAcc α β) (i : Nat) :
    (settleOne f items n acc i).results.length = acc.results.length := by
  unfold settleOne
  cases hit : items[i]? with
  | none => simp
  | some it =>
    cases hf : f it i with
    | ok v => simp [hf]
    | error msg => simp [hf]

theorem foldl_settle_results_length (f : α → Nat → Except String β) (items : List α)
    (n : Nat) : ∀ (l : List Nat) (acc : BatchAcc α β),
    (l.foldl (settleOne f items n) acc).results.length = acc.results.length := by
  intro l
  induction l with
  | nil => intro acc; rfl
  | cons i l ih =>
    intro acc
    rw [List.foldl_cons, ih, settle_results_length]

theorem settle_results_getElem_ne (f : α → Nat → Except String β) (items : List α)
    (n : Nat) (acc : BatchAcc α β) (i j : Nat) (hne : j ≠ i) :
    (settleOne f items n acc j).results[i]? = acc.results[i]? := by
  unfold settleOne
  cases hit : items[j]? with
  | none => simp
  | some it =>
    cases hf : f it j with
    | ok v => simp [hf, List.getElem?_set_ne hne]
    | error msg => simp [hf]

theorem foldl_settle_results_notmem (f : α → Nat → Except String β) (items : List α)
    (n : Nat) : ∀ (l : List Nat) (acc : BatchAcc α β) (i : Nat), i ∉ l →
    (l.foldl (settleOne f items n) acc).results[i]? = acc.results[i]? := by
  intro l
  induction l with
  | nil => intro acc i _; rfl
  | cons j l ih =>
    intro acc i hi
    rw [List.foldl_cons, ih _ i (fun hc => hi (List.mem_cons_of_mem j hc)),
      settle_results_getElem_ne]
    exact fun hc => hi (hc ▸ List.mem_cons_self j l)

theorem foldl_settle_results_mem (f : α → Nat → Except String β) (items : List α)
    (n : Nat) : ∀ (l : List Nat) (acc : BatchAcc α β) (i : Nat) (it : α),
    l.Nodup → i ∈ l → items[i]? = some it →
    acc.results.length = items.length →
    (l.foldl (settleOne f items n) acc).results[i]?
      = match f it i with
        | .ok v => some (some v)
        | .error _ => acc.results[i]? := by
  intro l
  induction l with
  | nil => intro acc i it _ hi; cases hi
  | cons j l ih =>
    intro acc i it hnd hi hit hlen
    rw [List.foldl_cons]
    rcases List.mem_cons.mp hi with heq | hmem
    · subst heq
      have hnotin : i ∉ l := (List.nodup_cons.mp hnd).1
      rw [foldl_settle_results_notmem f items n l _ i hnotin]
      unfold settleOne
      rw [hit]
      cases hf : f it i with
      | ok v =>
        have hlt : i < acc.results.length := by
          rw [hlen]
          exact (List.getElem?_eq_some_iff.mp hit).1
        simp [hf, List.getElem?_set_eq_of_lt _ hlt]
      | error msg => simp [hf]
    · have hji : i ≠ j := by
        intro hc
        subst hc
        exact (List.nodup_cons.mp hnd).1 hmem
      rw [ih _ i it (List.nodup_cons.mp hnd).2 hmem hit
        (by rw [settle_results_length]; exact hlen)]
      rw [settle_results_getElem_ne f items n acc i j (Ne.symm hji)]

theorem chunks_flatten : ∀ (c : Nat) (l : List γ), 1 ≤ c → (chunks c l).flatten = l := by
  intro c l
  induction c, l using chunks.induct with
  | case1 c => intro _; cases c <;> simp [chunks]
  | case2 x xs => intro hc; exact absurd hc (by omega)
  | case3 c x xs ih =>
    intro _
    rw [chunks, List.flatten_cons, ih (by omega), List.take_append_drop]

theorem batchRun_eq_flat (items : List α) (f : α → Nat → Except String β)
    (sched : List (List Nat)) :
    batchRun items f sched
      = (sched.flatten).foldl (settleOne f items items.length)
          (initAcc items.length) := by
  rw [batchRun, List.foldl_flatten]

theorem validSched_flatten_perm (n c : Nat) (sched : List (List Nat))
    (hc : 1 ≤ c) (hs : ValidSched n c sched) :
    sched.flatten.Perm (List.range n) := by
  have h1 := List.Perm.flatten_congr hs
  rw [batchWindows, chunks_flatten c (List.range n) hc] at h1
  exact h1

/-- **C3.** Whenever `batchProcess` returns normally, the returned array
has the input's length and slot `i` holds the worker's result for
`items[i]` — for every concurrency `c ≥ 1` and every settlement order of
the workers inside each window. -/
theorem C3_results_aligned (items : List α) (f : α → Nat → Except String β)
    (c : Nat) (sched : List (List Nat)) (rs : List (Option β))
    (hc : 1 ≤ c) (hs : ValidSched items.length c sched)
    (hok : batchProcess items f sched = .ok rs) :
    rs.length = items.length ∧
    ∀ i (hi : i < items.length),
      ∃ v, f (items[i]) i = .ok v ∧ rs[i]? = some (some v) := by
  have hperm := validSched_flatten_perm items.length c sched hc hs
  have hnd : sched.flatten.Nodup := hperm.nodup_iff.mpr (List.nodup_range _)
  have hflat := batchRun_eq_flat items f sched
  have herrs : (batchRun items f sched).errors
      = sched.flatten.filterMap (errOf f items) := by
    rw [hflat, foldl_settle_errors]
    rfl
  unfold batchProcess at hok
  by_cases he : (batchRun items f sched).errors.isEmpty
  · rw [if_pos he] at hok
    have hrs : rs = (batchRun items f sched).results := by
      cases hok
      rfl
    have hnil : sched.flatten.filterMap (errOf f items) = [] := by
      rw [← herrs]
      exact List.isEmpty_iff.mp he
    constructor
    · rw [hrs, hflat, foldl_settle_results_length]
      simp [initAcc]
    · intro i hi
      have hit : items[i]? = some (items[i]) := by
        simp [List.getElem?_eq_getElem hi]
      have hmem : i ∈ sched.flatten := hperm.mem_iff.mpr (List.mem_range.mpr hi)
      have hnone := List.forall_none_of_filterMap_eq_nil hnil i hmem
      simp only [errOf, hit] at hnone
      cases hf : f (items[i]) i with
      | error msg => simp [hf] at hnone
      | ok v =>
        refine ⟨v, rfl, ?_⟩
        rw [hrs, hflat,
          foldl_settle_results_mem f items items.length sched.flatten _ i
            (items[i]) hnd hmem hit (by simp [initAcc]), hf]
  · rw [if_neg he] at hok
    cases hok

/-- **C4.** A worker's failure never prevents any other item from being
attempted: every failing item is reported to `onError` with its item and
index, every succeeding item's result is recorded even when other items
fail, and the call throws (after all windows settle) exactly when some
item failed, with an aggregate error listing precisely the failing
indices and their messages. -/
theorem C4_failures_isolated (items : List α) (f : α → Nat → Except String β)
    (c : Nat) (sched : List (List Nat))
    (hc : 1 ≤ c) (hs : ValidSched items.length c sched) :
    (∀ i (hi : i < items.length) msg, f (items[i]) i = .error msg →
        (msg, items[i], i) ∈ (batchRun items f sched).onErrorLog) ∧
    (∀ i (hi : i < items.length) v, f (items[i]) i = .ok v →
        (batchRun items f sched).results[i]? = some (some v)) ∧
    ((batchRun items f sched).errors.Perm
        ((List.range items.length).filterMap (errOf f items))) ∧
    ((batchRun items f sched).errors = [] →
        batchProcess items f sched = .ok (batchRun items f sched).results) ∧
    ((batchRun items f sched).errors ≠ [] →
        batchProcess items f sched = .error (batchRun items f sched).errors) := by
  have hperm := validSched_flatten_perm items.length c sched hc hs
  have hnd : sched.flatten.Nodup := hperm.nodup_iff.mpr (List.nodup_range _)
  have hflat := batchRun_eq_flat items f sched
  refine ⟨?_, ?_, ?_, ?_, ?_⟩
  · intro i hi msg hf
    have hit : items[i]? = some (items[i]) := by
      simp [List.getElem?_eq_getElem hi]
    have hmem : i ∈ sched.flatten := hperm.mem_iff.mpr (List.mem_range.mpr hi)
    have hlog : (batchRun items f sched).onErrorLog
        = sched.flatten.filterMap (onErrOf f items) := by
      rw [hflat, foldl_settle_onErrorLog]
      rfl
    rw [hlog]
    exact List.mem_filterMap.mpr ⟨i, hmem, by simp [onErrOf, hit, hf]⟩
  · intro i hi v hf
    have hit : items[i]? = some (items[i]) := by
      simp [List.getElem?_eq_getElem hi]
    have hmem : i ∈ sched.flatten := hperm.mem_iff.mpr (List.mem_range.mpr hi)
    rw [hflat,
      foldl_settle_results_mem f items items.length sched.flatten _ i
        (items[i]) hnd hmem hit (by simp [initAcc]), hf]
  · have herrs : (batchRun items f sched).errors
        = sched.flatten.filterMap (errOf f items) := by
      rw [hflat, foldl_settle_errors]
      rfl
    rw [herrs]
    exact hperm.filterMap (errOf f items)
  · intro he
    unfold batchProcess
    rw [if_pos (List.isEmpty_iff.mpr he)]
  · intro he
    unfold batchProcess
    rw [if_neg (fun hc2 => he (List.isEmpty_iff.mp hc2))]

/-- Witness for `C3_results_aligned`: three items at concurrency 2, with
the first window settling in reversed order. -/
theorem C3_results_aligned_witness :
    ([some 10, some 21, some 32] : List (Option Nat)).length
      = ([10, 20, 30] : List Nat).length ∧
    ∀ i (hi : i < ([10, 20, 30] : List Nat).length),
      ∃ v, (fun (it : Nat) (idx : Nat) => (.ok (it + idx) : Except String Nat))
          (([10, 20, 30] : List Nat)[i]) i = .ok v ∧
        ([some 10, some 21, some 32] : List (Option Nat))[i]? = some (some v) := by
  have hw : batchWindows 3 2 = [[0, 1], [2]] := by
    have hr : List.range 3 = [0, 1, 2] := by decide
    rw [batchWindows, hr]
    simp [chunks]
  refine C3_results_aligned [10, 20, 30]
    (fun it idx => .ok (it + idx)) 2 [[1, 0], [2]]
    [some 10, some 21, some 32] (by omega) ?_ rfl
  rw [ValidSched, show ([10, 20, 30] : List Nat).length = 3 from rfl, hw]
  exact .cons (by decide) (.cons (by decide) .nil)

/-- Witness for `C4_failures_isolated`: two items at concurrency 1, the
first of which fails. -/
theorem C4_failures_isolated_witness :
    (∀ i (hi : i < ([1, 2] : List Nat).length) msg,
        (fun (it : Nat) (idx : Nat) =>
          (if it = 1 then .error "boom" else .ok (it * 10) : Except String Nat))
          (([1, 2] : List Nat)[i]) i = .error msg →
        (msg, ([1, 2] : List Nat)[i], i)
          ∈ (batchRun [1, 2]
              (fun it idx => if it = 1 then .error "boom" else .ok (it * 10))
              [[0], [1]]).onErrorLog) ∧
    (∀ i (hi : i < ([1, 2] : List Nat).length) v,
        (fun (it : Nat) (idx : Nat) =>
          (if it = 1 then .error "boom" else .ok (it * 10) : Except String Nat))
          (([1, 2] : List Nat)[i]) i = .ok v →
        (batchRun [1, 2]
            (fun it idx => if it = 1 then .error "boom" else .ok (it * 10))
            [[0], [1]]).results[i]? = some (some v)) ∧
    ((batchRun [1, 2]
        (fun it idx => if it = 1 then .error "boom" else .ok (it * 10))
        [[0], [1]]).errors.Perm
      ((List.range ([1, 2] : List Nat).length).filterMap
        (errOf (fun it idx => if it = 1 then .error "boom" else .ok (it * 10)) [1, 2]))) ∧
    ((batchRun [1, 2]
        (fun it idx => if it = 1 then .error "boom" else .ok (it * 10))
        [[0], [1]]).errors = [] →
      batchProcess [1, 2]
          (fun it idx => if it = 1 then .error "boom" else .ok (it * 10)) [[0], [1]]
        = .ok (batchRun [1, 2]
            (fun it idx => if it = 1 then .error "boom" else .ok (it * 10))
            [[0], [1]]).results) ∧
    ((batchRun [1, 2]
        (fun it idx => if it = 1 then .error "boom" else .ok (it * 10))
        [[0], [1]]).errors ≠ [] →
      batchProcess [1, 2]
          (fun it idx => if it = 1 then .error "boom" else .ok (it * 10)) [[0], [1]]
        = .error (batchRun [1, 2]
            (fun it idx => if it = 1 then .error "boom" else .ok (it * 10))
            [[0], [1]]).errors) := by
  have hw : batchWindows 2 1 = [[0], [1]] := by
    have hr : List.range 2 = [0, 1] := by decide
    rw [batchWindows, hr]
    simp [chunks]
  refine C4_failures_isolated [1, 2]
    (fun it idx => if it = 1 then .error "boom" else .ok (it * 10)) 1 [[0], [1]]
    (by omega) ?_
  rw [ValidSched, show ([1, 2] : List Nat).length = 2 from rfl, hw]
  exact .cons (by decide) (.cons (by decide) .nil)

theorem unsettledFor_markSettled (l : List (Nat × String × Bool)) (pid : Nat)
    (k : String) :
    unsettledFor (markSettled l pid) k
      = (unsettledFor l k).filter (fun f => f.1 != pid) := by
  induction l with
  | nil => rfl
  | cons f l ih =>
    obtain ⟨fid, fkey, fst⟩ := f
    by_cases hp : fid = pid <;> by_cases hk1 : fkey = k <;> cases fst <;>
      simp [markSettled, unsettledFor, List.filter_cons, hp, hk1] at ih ⊢ <;>
      simp [ih]

theorem unsettledFor_append_self (l : List (Nat × String × Bool)) (pid : Nat)
    (k : String) :
    unsettledFor (l ++ [(pid, k, false)]) k = unsettledFor l k ++ [(pid, k, false)] := by
  simp [unsettledFor, List.filter_append]

theorem unsettledFor_append_other (l : List (Nat × String × Bool)) (pid : Nat)
    (k k' : String) (hne : k' ≠ k) :
    unsettledFor (l ++ [(pid, k, false)]) k' = unsettledFor l k' := by
  have : ¬(k == k') := by simpa using fun hc => hne hc.symm
  simp [unsettledFor, List.filter_append, this]

theorem mapGet_mapDelete_sub (m : List (String × β)) (k key : String) (e : β)
    (h : mapGet (mapDelete m k) key = some e) : mapGet m key = some e := by
  by_cases hk : key = k
  · rw [hk, mapGet_mapDelete_self] at h
    cases h
  · rwa [mapGet_mapDelete_ne m k key hk] at h

theorem cacheBounded_evict (c : AdvancedCache Nat) (n : Nat)
    (h : cacheBounded c n) : cacheBounded c.evictOldest n := by
  intro key e he
  simp only [AdvancedCache.evictOldest] at he
  split at he
  · exact h key e he
  · split at he
    · exact h key e he
    · exact h key e (mapGet_mapDelete_sub _ _ _ _ he)

theorem cacheBounded_get (c : AdvancedCache Nat) (key : String) (now : Int)
    (n : Nat) (h : cacheBounded c n) :
    cacheBounded (c.get key now).1 n := by
  intro key' e' he'
  cases hg : mapGet c.entries key with
  | none =>
    simp only [AdvancedCache.get, hg] at he'
    exact h key' e' he'
  | some e =>
    simp only [AdvancedCache.get, hg] at he'
    split at he'
    · exact h key' e' (mapGet_mapDelete_sub _ _ _ _ he')
    · by_cases hk : key' = key
      · subst hk
        rw [mapGet_mapSet_self] at he'
        cases he'
        exact h key' e hg
      · rw [mapGet_mapSet_ne _ _ _ _ hk] at he'
        exact h key' e' he'

theorem cacheBounded_set (c : AdvancedCache Nat) (key : String) (v : Nat)
    (ttlOpt : Option Int) (now : Int) (n : Nat)
    (h : cacheBounded c n) (hv : v < n) :
    cacheBounded (c.set key v ttlOpt now) n := by
  intro key' e' he'
  simp only [AdvancedCache.set] at he'
  by_cases hk : key' = key
  · subst hk
    rw [mapGet_mapSet_self] at he'
    cases he'
    exact hv
  · rw [mapGet_mapSet_ne _ _ _ _ hk] at he'
    split at he'
    · exact cacheBounded_evict c n h key' e' he'
    · exact h key' e' he'

theorem cacheBounded_mono (c : AdvancedCache Nat) (n m : Nat)
    (h : cacheBounded c n) (hnm : n ≤ m) : cacheBounded c m :=
  fun key e he => lt_of_lt_of_le (h key e he) hnm

theorem cache_get_some_lt (c : AdvancedCache Nat) (key : String) (now : Int)
    (n : Nat) (h : cacheBounded c n) (a : Nat)
    (ha : (c.get key now).2 = some a) : a < n := by
  cases hg : mapGet c.entries key with
  | none =>
    simp only [AdvancedCache.get, hg] at ha
    cases ha
  | some e =>
    simp only [AdvancedCache.get, hg] at ha
    split at ha
    · cases ha
    · cases ha
      exact h key e hg

theorem dmCall_snapshot (s : DMState) (k : String) (now : Int) (a : Nat)
    (h : s.staticData k = some a) :
    (dmCall s k now).2 = .value s.next ∧
    (dmCall s k now).1.next = s.next + 1 ∧
    (dmCall s k now).1.heap s.next = deepClone (s.heap a) ∧
    (∀ x, x ≠ s.next → (dmCall s k now).1.heap x = s.heap x) ∧
    (dmCall s k now).1.staticData = s.staticData ∧
    (dmCall s k now).1.loading = s.loading ∧
    (dmCall s k now).1.cache = s.cache ∧
    (dmCall s k now).1.fetches = s.fetches ∧
    (dmCall s k now).1.nextPid = s.nextPid := by
  refine ⟨?_, ?_, ?_, ?_, ?_, ?_, ?_, ?_, ?_⟩ <;>
    first
      | (simp [dmCall, h, DMState.alloc]; done)
      | (intro x hx; simp [dmCall, h, DMState.alloc, hx]; done)
      | (intro x hx1 hx2; simp [dmCall, h, DMState.alloc, hx1, hx2])

theorem dmCall_join (s : DMState) (k : String) (now : Int) (pid : Nat)
    (h1 : s.staticData k = none) (h2 : s.loading k = some pid) :
    dmCall s k now = (s, .join pid) := by
  simp only [dmCall, h1, h2]

theorem dmCall_cachehit (s : DMState) (k : String) (now : Int) (a : Nat)
    (h1 : s.staticData k = none) (h2 : s.loading k = none)
    (h3 : (s.cache.get ("static_" ++ k) now).2 = some a) :
    (dmCall s k now).2 = .value s.next ∧
    (dmCall s k now).1.next = s.next + 1 ∧
    (dmCall s k now).1.heap s.next = deepClone (s.heap a) ∧
    (∀ x, x ≠ s.next → (dmCall s k now).1.heap x = s.heap x) ∧
    (dmCall s k now).1.staticData = fupdate s.staticData k (some a) ∧
    (dmCall s k now).1.loading = s.loading ∧
    (dmCall s k now).1.cache = (s.cache.get ("static_" ++ k) now).1 ∧
    (dmCall s k now).1.fetches = s.fetches ∧
    (dmCall s k now).1.nextPid = s.nextPid := by
  refine ⟨?_, ?_, ?_, ?_, ?_, ?_, ?_, ?_, ?_⟩ <;>
    first
      | (simp [dmCall, h1, h2, h3, DMState.alloc]; done)
      | (intro x hx; simp [dmCall, h1, h2, h3, DMState.alloc, hx]; done)
      | (intro x hx1 hx2; simp [dmCall, h1, h2, h3, DMState.alloc, hx1, hx2])

theorem dmCall_start (s : DMState) (k : String) (now : Int)
    (h1 : s.staticData k = none) (h2 : s.loading k = none)
    (h3 : (s.cache.get ("static_" ++ k) now).2 = none) :
    (dmCall s k now).2 = .started s.nextPid ∧
    (dmCall s k now).1.next = s.next ∧
    (dmCall s k now).1.heap = s.heap ∧
    (dmCall s k now).1.staticData = s.staticData ∧
    (dmCall s k now).1.loading = fupdate s.loading k (some s.nextPid) ∧
    (dmCall s k now).1.cache = (s.cache.get ("static_" ++ k) now).1 ∧
    (dmCall s k now).1.fetches = s.fetches ++ [(s.nextPid, k, false)] ∧
    (dmCall s k now).1.nextPid = s.nextPid + 1 := by
  refine ⟨?_, ?_, ?_, ?_, ?_, ?_, ?_, ?_⟩ <;>
    first
      | (simp [dmCall, h1, h2, h3]; done)
      | (intro x hx; simp [dmCall, h1, h2, h3, hx]; done)
      | (intro x hx1 hx2; simp [dmCall, h1, h2, h3, hx1, hx2])

theorem dmSettle_success (s : DMState) (k : String) (pid : Nat) (j : Json)
    (fb : String → Option Json) (now : Int) :
    (dmSettle s k pid (.success j) fb now).2.1 = .ok s.next ∧
    (dmSettle s k pid (.success j) fb now).2.2 = .ok (s.next + 1) ∧
    (dmSettle s k pid (.success j) fb now).1.next = s.next + 2 ∧
    (dmSettle s k pid (.success j) fb now).1.heap s.next = j ∧
    (dmSettle s k pid (.success j) fb now).1.heap (s.next + 1) = deepClone j ∧
    (∀ x, x ≠ s.next → x ≠ s.next + 1 →
      (dmSettle s k pid (.success j) fb now).1.heap x = s.heap x) ∧
    (dmSettle s k pid (.success j) fb now).1.staticData
      = fupdate s.staticData k (some s.next) ∧
    (dmSettle s k pid (.success j) fb now).1.loading = fupdate s.loading k none ∧
    (dmSettle s k pid (.success j) fb now).1.cache
      = s.cache.set ("static_" ++ k) s.next (some (5 * 60 * 1000)) now ∧
    (dmSettle s k pid (.success j) fb now).1.fetches = markSettled s.fetches pid ∧
    (dmSettle s k pid (.success j) fb now).1.nextPid = s.nextPid := by
  refine ⟨?_, ?_, ?_, ?_, ?_, ?_, ?_, ?_, ?_, ?_, ?_⟩ <;>
    first
      | (simp [dmSettle, DMState.alloc]; done)
      | (intro x hx; simp [dmSettle, DMState.alloc, hx]; done)
      | (intro x hx1 hx2; simp [dmSettle, DMState.alloc, hx1, hx2])

theorem dmSettle_fail_fb (s : DMState) (k : String) (pid : Nat) (msg : String)
    (fb : String → Option Json) (now : Int) (jf : Json) (hfb : fb k = some jf) :
    (dmSettle s k pid (.failure msg) fb now).2.1 = .error msg ∧
    (dmSettle s k pid (.failure msg) fb now).2.2 = .ok s.next ∧
    (dmSettle s k pid (.failure msg) fb now).1.next = s.next + 1 ∧
    (dmSettle s k pid (.failure msg) fb now).1.heap s.next = jf ∧
    (∀ x, x ≠ s.next →
      (dmSettle s k pid (.failure msg) fb now).1.heap x = s.heap x) ∧
    (dmSettle s k pid (.failure msg) fb now).1.staticData
      = fupdate s.staticData k (some s.next) ∧
    (dmSettle s k pid (.failure msg) fb now).1.loading = fupdate s.loading k none ∧
    (dmSettle s k pid (.failure msg) fb now).1.cache = s.cache ∧
    (dmSettle s k pid (.failure msg) fb now).1.fetches = markSettled s.fetches pid ∧
    (dmSettle s k pid (.failure msg) fb now).1.nextPid = s.nextPid := by
  refine ⟨?_, ?_, ?_, ?_, ?_, ?_, ?_, ?_, ?_, ?_⟩ <;>
    first
      | (simp [dmSettle, hfb, DMState.alloc]; done)
      | (intro x hx; simp [dmSettle, hfb, DMState.alloc, hx]; done)
      | (intro x hx1 hx2; simp [dmSettle, hfb, DMState.alloc, hx1, hx2])

theorem dmSettle_fail_nofb (s : DMState) (k : String) (pid : Nat) (msg : String)
    (fb : String → Option Json) (now : Int) (hfb : fb k = none) :
    (dmSettle s k pid (.failure msg) fb now).2.1 = .error msg ∧
    (dmSettle s k pid (.failure msg) fb now).2.2 = .error msg ∧
    (dmSettle s k pid (.failure msg) fb now).1.next = s.next ∧
    (dmSettle s k pid (.failure msg) fb now).1.heap = s.heap ∧
    (dmSettle s k pid (.failure msg) fb now).1.staticData = s.staticData ∧
    (dmSettle s k pid (.failure msg) fb now).1.loading = fupdate s.loading k none ∧
    (dmSettle s k pid (.failure msg) fb now).1.cache = s.cache ∧
    (dmSettle s k pid (.failure msg) fb now).1.fetches = markSettled s.fetches pid ∧
    (dmSettle s k pid (.failure msg) fb now).1.nextPid = s.nextPid := by
  refine ⟨?_, ?_, ?_, ?_, ?_, ?_, ?_, ?_, ?_⟩ <;>
    first
      | (simp [dmSettle, hfb]; done)
      | (intro x hx; simp [dmSettle, hfb, hx]; done)
      | (intro x hx1 hx2; simp [dmSettle, hfb, hx1, hx2])

theorem markSettled_mem (f : Nat × String × Bool) (l : List (Nat × String × Bool))
    (pid : Nat) (hf : f ∈ markSettled l pid) : ∃ g ∈ l, g.1 = f.1 := by
  obtain ⟨g, hg, hgf⟩ := List.mem_map.mp hf
  refine ⟨g, hg, ?_⟩
  by_cases hgp : g.1 = pid <;> simp [hgp] at hgf <;> rw [← hgf]
  exact hgp

theorem dmInv_init : DMInv dmInit := by
  constructor
  · intro k pid h
    simp [dmInit] at h
  · intro k
    simp [dmInit, inflight, unsettledFor]
  · intro f hf
    simp [dmInit] at hf
  · intro k k' pid h1 h2
    simp [dmInit] at h1
  · intro k a h
    simp [dmInit] at h
  · intro key e h
    simp [dmInit, generalCacheInit, AdvancedCache.new, mapGet] at h

theorem dmInv_call (s : DMState) (k : String) (now : Int) (h : DMInv s) :
    DMInv (dmCall s k now).1 := by
  cases hsd : s.staticData k with
  | some a =>
    obtain ⟨_, hnext, _, _, hst, hld, hc, hf, hp⟩ := dmCall_snapshot s k now a hsd
    constructor
    · intro k' pid hl
      rw [hld] at hl
      rw [hst]
      exact h.loadStatic k' pid hl
    · intro k'
      simp only [inflight, hf, hld]
      exact h.loadFetch k'
    · intro f hf2
      rw [hf] at hf2
      rw [hp]
      exact h.pidBound f hf2
    · intro k1 k2 pid h1 h2
      rw [hld] at h1 h2
      exact h.loadInj k1 k2 pid h1 h2
    · intro k' a' hb
      rw [hst] at hb
      rw [hnext]
      exact lt_of_lt_of_le (h.staticLt k' a' hb) (by omega)
    · intro key e he
      rw [hc] at he
      rw [hnext]
      exact lt_of_lt_of_le (h.cacheLt key e he) (by omega)
  | none =>
    cases hld : s.loading k with
    | some pid =>
      rw [dmCall_join s k now pid hsd hld]
      exact h
    | none =>
      cases hcg : (s.cache.get ("static_" ++ k) now).2 with
      | some a =>
        obtain ⟨_, hnext, _, _, hst, hld2, hc, hf, hp⟩ :=
          dmCall_cachehit s k now a hsd hld hcg
        have halt : a < s.next := cache_get_some_lt s.cache _ now s.next h.cacheLt a hcg
        constructor
        · intro k' pid hl
          rw [hld2] at hl
          rw [hst]
          by_cases hk : k' = k
          · subst hk
            rw [hld] at hl
            cases hl
          · unfold fupdate
            rw [if_neg hk]
            exact h.loadStatic k' pid hl
        · intro k'
          simp only [inflight, hf, hld2]
          exact h.loadFetch k'
        · intro f hf2
          rw [hf] at hf2
          rw [hp]
          exact h.pidBound f hf2
        · intro k1 k2 pid h1 h2
          rw [hld2] at h1 h2
          exact h.loadInj k1 k2 pid h1 h2
        · intro k' a' hb
          rw [hst] at hb
          rw [hnext]
          unfold fupdate at hb
          by_cases hk : k' = k
          · rw [if_pos hk] at hb
            cases hb
            omega
          · rw [if_neg hk] at hb
            exact lt_of_lt_of_le (h.staticLt k' a' hb) (by omega)
        · intro key e he
          rw [hc] at he
          rw [hnext]
          exact cacheBounded_mono _ _ _
            (cacheBounded_get s.cache _ now s.next h.cacheLt) (by omega) key e he
      | none =>
        obtain ⟨_, hnext, hheap, hst, hld2, hc, hf, hp⟩ :=
          dmCall_start s k now hsd hld hcg
        constructor
        · intro k' pid hl
          rw [hld2] at hl
          rw [hst]
          by_cases hk : k' = k
          · subst hk
            exact hsd
          · unfold fupdate at hl
            rw [if_neg hk] at hl
            exact h.loadStatic k' pid hl
        · intro k'
          simp only [inflight, hf, hld2]
          by_cases hk : k' = k
          · subst hk
            unfold fupdate
            simp only [if_pos rfl]
            rw [unsettledFor_append_self]
            have h0 : unsettledFor s.fetches k' = [] := by
              have := h.loadFetch k'
              rw [hld] at this
              exact this
            rw [h0]
            rfl
          · unfold fupdate
            rw [if_neg hk]
            rw [unsettledFor_append_other _ _ _ _ hk]
            exact h.loadFetch k'
        · intro f hf2
          rw [hf] at hf2
          rw [hp]
          rcases List.mem_append.mp hf2 with hin | hin
          · exact lt_of_lt_of_le (h.pidBound f hin) (by omega)
          · have : f = (s.nextPid, k, false) := by simpa using hin
            rw [this]
            omega
        · intro k1 k2 pid h1 h2
          rw [hld2] at h1 h2
          unfold fupdate at h1 h2
          by_cases hk1 : k1 = k <;> by_cases hk2 : k2 = k
          · rw [hk1, hk2]
          · exfalso
            rw [if_pos hk1] at h1
            rw [if_neg hk2] at h2
            have hpid : pid = s.nextPid := by
              cases h1
              rfl
            have hmem : (pid, k2, false) ∈ s.fetches := by
              have hlf := h.loadFetch k2
              rw [h2] at hlf
              have hlf2 : unsettledFor s.fetches k2 = [(pid, k2, false)] := hlf
              have hmem2 : (pid, k2, false) ∈ unsettledFor s.fetches k2 := by
                rw [hlf2]
                exact List.mem_singleton_self _
              exact List.mem_of_mem_filter hmem2
            have := h.pidBound _ hmem
            simp at this
            omega
          · exfalso
            rw [if_pos hk2] at h2
            rw [if_neg hk1] at h1
            have hpid : pid = s.nextPid := by
              cases h2
              rfl
            have hmem : (pid, k1, false) ∈ s.fetches := by
              have hlf := h.loadFetch k1
              rw [h1] at hlf
              have hlf2 : unsettledFor s.fetches k1 = [(pid, k1, false)] := hlf
              have hmem2 : (pid, k1, false) ∈ unsettledFor s.fetches k1 := by
                rw [hlf2]
                exact List.mem_singleton_self _
              exact List.mem_of_mem_filter hmem2
            have := h.pidBound _ hmem
            simp at this
            omega
          · rw [if_neg hk1] at h1
            rw [if_neg hk2] at h2
            exact h.loadInj k1 k2 pid h1 h2
        · intro k' a' hb
          rw [hst] at hb
          rw [hnext]
          exact h.staticLt k' a' hb
        · intro key e he
          rw [hc] at he
          rw [hnext]
          exact cacheBounded_get s.cache _ now s.next h.cacheLt key e he

theorem unsettled_one_of_loading (s : DMState) (k : String) (pid : Nat)
    (h : DMInv s) (hl : s.loading k = some pid) :
    unsettledFor s.fetches k = [(pid, k, false)] := by
  have hlf := h.loadFetch k
  rw [hl] at hlf
  exact hlf

theorem unsettled_nil_of_not_loading (s : DMState) (k : String)
    (h : DMInv s) (hl : s.loading k = none) :
    unsettledFor s.fetches k = [] := by
  have hlf := h.loadFetch k
  rw [hl] at hlf
  exact hlf

theorem dmInv_settle (s : DMState) (k : String) (pid : Nat) (out : FetchOutcome)
    (fb : String → Option Json) (now : Int) (h : DMInv s)
    (hl : s.loading k = some pid) :
    DMInv (dmSettle s k pid out fb now).1 := by
  have hpidlt : pid < s.nextPid := by
    have hmem : (pid, k, false) ∈ s.fetches :=
      List.mem_of_mem_filter
        ((unsettled_one_of_loading s k pid h hl) ▸ List.mem_singleton_self _)
    simpa using h.pidBound _ hmem
  have hinflight : ∀ k' pid2, k' ≠ k → s.loading k' = some pid2 → pid2 ≠ pid := by
    intro k' pid2 hk hl2 hc
    subst hc
    exact hk (h.loadInj k' k pid2 hl2 hl)
  have hmark : ∀ k', unsettledFor (markSettled s.fetches pid) k'
      = (unsettledFor s.fetches k').filter (fun f => f.1 != pid) :=
    fun k' => unsettledFor_markSettled s.fetches pid k'
  have hfetchInv : ∀ (newLoading : String → Option Nat),
      newLoading = fupdate s.loading k none →
      ∀ k', (match newLoading k' with
        | some pid2 => unsettledFor (markSettled s.fetches pid) k' = [(pid2, k', false)]
        | none => unsettledFor (markSettled s.fetches pid) k' = []) := by
    intro newLoading hnew k'
    rw [hnew]
    unfold fupdate
    by_cases hk : k' = k
    · rw [if_pos hk]
      rw [hmark, hk, unsettled_one_of_loading s k pid h hl]
      simp
    · rw [if_neg hk]
      cases hld2 : s.loading k' with
      | some pid2 =>
        rw [hmark, unsettled_one_of_loading s k' pid2 h hld2]
        simp [hinflight k' pid2 hk hld2]
      | none =>
        rw [hmark, unsettled_nil_of_not_loading s k' h hld2]
        rfl
  have hpidB : ∀ f ∈ markSettled s.fetches pid, f.1 < s.nextPid := by
    intro f hf
    obtain ⟨g, hg, hgf⟩ := markSettled_mem f s.fetches pid hf
    rw [← hgf]
    exact h.pidBound g hg
  have hInj : ∀ (newLoading : String → Option Nat),
      newLoading = fupdate s.loading k none →
      ∀ k1 k2 pid2, newLoading k1 = some pid2 → newLoading k2 = some pid2 → k1 = k2 := by
    intro newLoading hnew k1 k2 pid2 h1 h2
    rw [hnew] at h1 h2
    unfold fupdate at h1 h2
    by_cases hk1 : k1 = k
    · rw [if_pos hk1] at h1
      cases h1
    · by_cases hk2 : k2 = k
      · rw [if_pos hk2] at h2
        cases h2
      · rw [if_neg hk1] at h1
        rw [if_neg hk2] at h2
        exact h.loadInj k1 k2 pid2 h1 h2
  cases out with
  | success j =>
    obtain ⟨_, _, hnext, _, _, _, hst, hld2, hc, hf, hp⟩ :=
      dmSettle_success s k pid j fb now
    constructor
    · intro k' pid2 hl2
      rw [hld2] at hl2
      rw [hst]
      unfold fupdate at hl2 ⊢
      by_cases hk : k' = k
      · rw [if_pos hk] at hl2
        cases hl2
      · rw [if_neg hk] at hl2
        rw [if_neg hk]
        exact h.loadStatic k' pid2 hl2
    · intro k'
      simp only [inflight, hf, hld2]
      exact hfetchInv (fupdate s.loading k none) rfl k'
    · intro f hf2
      rw [hf] at hf2
      rw [hp]
      exact hpidB f hf2
    · intro k1 k2 pid2 h1 h2
      rw [hld2] at h1 h2
      exact hInj (fupdate s.loading k none) rfl k1 k2 pid2 h1 h2
    · intro k' a' hb
      rw [hst] at hb
      rw [hnext]
      unfold fupdate at hb
      by_cases hk : k' = k
      · rw [if_pos hk] at hb
        cases hb
        omega
      · rw [if_neg hk] at hb
        exact lt_of_lt_of_le (h.staticLt k' a' hb) (by omega)
    · intro key e he
      rw [hc] at he
      rw [hnext]
      exact cacheBounded_set s.cache _ s.next _ now (s.next + 2)
        (cacheBounded_mono _ _ _ h.cacheLt (by omega)) (by omega) key e he
  | failure msg =>
    cases hfb : fb k with
    | some jf =>
      obtain ⟨_, _, hnext, _, _, hst, hld2, hc, hf, hp⟩ :=
        dmSettle_fail_fb s k pid msg fb now jf hfb
      constructor
      · intro k' pid2 hl2
        rw [hld2] at hl2
        rw [hst]
        unfold fupdate at hl2 ⊢
        by_cases hk : k' = k
        · rw [if_pos hk] at hl2
          cases hl2
        · rw [if_neg hk] at hl2
          rw [if_neg hk]
          exact h.loadStatic k' pid2 hl2
      · intro k'
        simp only [inflight, hf, hld2]
        exact hfetchInv (fupdate s.loading k none) rfl k'
      · intro f hf2
        rw [hf] at hf2
        rw [hp]
        exact hpidB f hf2
      · intro k1 k2 pid2 h1 h2
        rw [hld2] at h1 h2
        exact hInj (fupdate s.loading k none) rfl k1 k2 pid2 h1 h2
      · intro k' a' hb
        rw [hst] at hb
        rw [hnext]
        unfold fupdate at hb
        by_cases hk : k' = k
        · rw [if_pos hk] at hb
          cases hb
          omega
        · rw [if_neg hk] at hb
          exact lt_of_lt_of_le (h.staticLt k' a' hb) (by omega)
      · intro key e he
        rw [hc] at he
        rw [hnext]
        exact cacheBounded_mono _ _ _ h.cacheLt (by omega) key e he
    | none =>
      obtain ⟨_, _, hnext, hheap, hst, hld2, hc, hf, hp⟩ :=
        dmSettle_fail_nofb s k pid msg fb now hfb
      constructor
      · intro k' pid2 hl2
        rw [hld2] at hl2
        rw [hst]
        unfold fupdate at hl2
        by_cases hk : k' = k
        · rw [if_pos hk] at hl2
          cases hl2
        · rw [if_neg hk] at hl2
          exact h.loadStatic k' pid2 hl2
      · intro k'
        simp only [inflight, hf, hld2]
        exact hfetchInv (fupdate s.loading k none) rfl k'
      · intro f hf2
        rw [hf] at hf2
        rw [hp]
        exact hpidB f hf2
      · intro k1 k2 pid2 h1 h2
        rw [hld2] at h1 h2
        exact hInj (fupdate s.loading k none) rfl k1 k2 pid2 h1 h2
      · intro k' a' hb
        rw [hst] at hb
        rw [hnext]
        exact h.staticLt k' a' hb
      · intro key e he
        rw [hc] at he
        rw [hnext]
        exact h.cacheLt key e he

theorem dmInv_reachable (fb : String → Option Json) (s : DMState)
    (h : DMReachable fb s) : DMInv s := by
  induction h with
  | refl => exact dmInv_init
  | tail _ hstep ih =>
    cases hstep with
    | call k now => exact dmInv_call _ k now ih
    | settle k pid out now hl => exact dmInv_settle _ k pid out fb now ih hl

/-- **C1, amended.** In every reachable manager state with a fetch for
`key` in flight, a second `getData(key)` call returns the stored pending
promise itself, changes nothing (in particular it starts no second HTTP
request — exactly one fetch for `key` is in flight), and when that fetch
succeeds, the initiating caller and the joining caller observe
structurally equal data.  (The counterexample shows the fallback half of
the original claim fails: the joiner awaits the raw `fetchData` promise,
which rejects even when a fallback is registered.) -/
theorem C1_inflight_dedup (fb : String → Option Json) (s : DMState) (k : String)
    (pid : Nat) (now : Int)
    (hr : DMReachable fb s) (hl : s.loading k = some pid) :
    dmCall s k now = (s, .join pid) ∧
    inflight s k = [(pid, k, false)] ∧
    (∀ j now2,
      ∃ aData aClone,
        (dmSettle s k pid (.success j) fb now2).2.1 = .ok aData ∧
        (dmSettle s k pid (.success j) fb now2).2.2 = .ok aClone ∧
        (dmSettle s k pid (.success j) fb now2).1.heap aData = j ∧
        (dmSettle s k pid (.success j) fb now2).1.heap aClone = j) := by
  have hinv := dmInv_reachable fb s hr
  have hsd : s.staticData k = none := hinv.loadStatic k pid hl
  refine ⟨dmCall_join s k now pid hsd hl,
    unsettled_one_of_loading s k pid hinv hl, ?_⟩
  intro j now2
  obtain ⟨h1, h2, _, hh1, hh2, _⟩ := dmSettle_success s k pid j fb now2
  exact ⟨s.next, s.next + 1, h1, h2, hh1, by rw [hh2, deepClone_eq]⟩

/-- Witness for `C1_inflight_dedup`: the state after one `getData("x")`
call on a fresh manager. -/
theorem C1_inflight_dedup_witness :
    dmCall (dmCall dmInit "x" 0).1 "x" 3 = ((dmCall dmInit "x" 0).1, .join 0) ∧
    inflight (dmCall dmInit "x" 0).1 "x" = [(0, "x", false)] ∧
    (∀ j now2,
      ∃ aData aClone,
        (dmSettle (dmCall dmInit "x" 0).1 "x" 0 (.success j) c1fb now2).2.1
          = .ok aData ∧
        (dmSettle (dmCall dmInit "x" 0).1 "x" 0 (.success j) c1fb now2).2.2
          = .ok aClone ∧
        (dmSettle (dmCall dmInit "x" 0).1 "x" 0 (.success j) c1fb now2).1.heap aData
          = j ∧
        (dmSettle (dmCall dmInit "x" 0).1 "x" 0 (.success j) c1fb now2).1.heap aClone
          = j) :=
  C1_inflight_dedup c1fb (dmCall dmInit "x" 0).1 "x" 0 3
    (Relation.ReflTransGen.tail Relation.ReflTransGen.refl
      (DMStep.call dmInit "x" 0))
    rfl

/-- **C1, counterexample.** Two concurrent `getData("x")` calls with a
registered fallback, with the underlying fetch failing: the second call
does join the pending promise, but on settlement the initiating caller
resolves with the fallback object while the joining caller's promise
rejects with the error — the two callers do not receive the same eventual
fallback. -/
theorem C1_joiner_misses_fallback :
    (dmCall (dmCall dmInit "x" 0).1 "x" 0).2 = .join 0 ∧
    (dmSettle (dmCall dmInit "x" 0).1 "x" 0 (.failure "Network error") c1fb 0).2.2
      = .ok 0 ∧
    (dmSettle (dmCall dmInit "x" 0).1 "x" 0 (.failure "Network error") c1fb 0).1.heap 0
      = Json.str "fallback home" ∧
    (dmSettle (dmCall dmInit "x" 0).1 "x" 0 (.failure "Network error") c1fb 0).2.1
      = .error "Network error" := by
  refine ⟨?_, ?_, ?_, ?_⟩ <;> rfl

/-- **C2.** On fetch failure with a registered fallback factory, the
initiating `getData` call resolves to the freshly built fallback object,
which becomes the stored snapshot, and every subsequent call returns a
copy of it without issuing any new fetch; without a fallback the error
propagates, the key remains absent from the snapshot store and not
loading, and (when the TTL cache also misses) the next call starts a
fresh fetch. -/
theorem C2_fallback_resolution (s : DMState) (k : String) (pid : Nat) (msg : String)
    (fb1 fb2 : String → Option Json) (now : Int) (jf : Json)
    (hl : s.loading k = some pid) (hfb1 : fb1 k = some jf) :
    ((dmSettle s k pid (.failure msg) fb1 now).2.2 = .ok s.next ∧
      (dmSettle s k pid (.failure msg) fb1 now).1.staticData k = some s.next ∧
      (dmSettle s k pid (.failure msg) fb1 now).1.heap s.next = jf ∧
      ∀ now2,
        (dmCall (dmSettle s k pid (.failure msg) fb1 now).1 k now2).2
          = .value (dmSettle s k pid (.failure msg) fb1 now).1.next ∧
        (dmCall (dmSettle s k pid (.failure msg) fb1 now).1 k now2).1.heap
            ((dmSettle s k pid (.failure msg) fb1 now).1.next) = jf ∧
        (dmCall (dmSettle s k pid (.failure msg) fb1 now).1 k now2).1.fetches
          = (dmSettle s k pid (.failure msg) fb1 now).1.fetches) ∧
    (fb2 k = none → s.staticData k = none →
      (dmSettle s k pid (.failure msg) fb2 now).2.2 = .error msg ∧
      (dmSettle s k pid (.failure msg) fb2 now).1.staticData k = none ∧
      (dmSettle s k pid (.failure msg) fb2 now).1.loading k = none ∧
      (∀ now2,
        ((dmSettle s k pid (.failure msg) fb2 now).1.cache.get
            ("static_" ++ k) now2).2 = none →
        (dmCall (dmSettle s k pid (.failure msg) fb2 now).1 k now2).2
          = .started (dmSettle s k pid (.failure msg) fb2 now).1.nextPid ∧
        (dmCall (dmSettle s k pid (.failure msg) fb2 now).1 k now2).1.fetches.length
          = (dmSettle s k pid (.failure msg) fb2 now).1.fetches.length + 1)) := by
  constructor
  · obtain ⟨_, h22, _, hh, _, hst, hld2, _, hf, _⟩ :=
      dmSettle_fail_fb s k pid msg fb1 now jf hfb1
    have hsd2 : (dmSettle s k pid (.failure msg) fb1 now).1.staticData k
        = some s.next := by
      rw [hst]
      unfold fupdate
      rw [if_pos rfl]
    refine ⟨h22, hsd2, hh, ?_⟩
    intro now2
    obtain ⟨hc1, _, hc3, _, _, _, _, hcf, _⟩ :=
      dmCall_snapshot (dmSettle s k pid (.failure msg) fb1 now).1 k now2 s.next hsd2
    refine ⟨hc1, ?_, hcf⟩
    rw [hc3, hh, deepClone_eq]
  · intro hfb2 hsd
    obtain ⟨_, h22, hnext, hheap, hst, hld2, hc, hf, hp⟩ :=
      dmSettle_fail_nofb s k pid msg fb2 now hfb2
    have hsd2 : (dmSettle s k pid (.failure msg) fb2 now).1.staticData k = none := by
      rw [hst]
      exact hsd
    have hld3 : (dmSettle s k pid (.failure msg) fb2 now).1.loading k = none := by
      rw [hld2]
      unfold fupdate
      rw [if_pos rfl]
    refine ⟨h22, hsd2, hld3, ?_⟩
    intro now2 hcg
    obtain ⟨hs1, _, _, _, _, _, hs7, _⟩ :=
      dmCall_start (dmSettle s k pid (.failure msg) fb2 now).1 k now2 hsd2 hld3 hcg
    refine ⟨hs1, ?_⟩
    rw [hs7]
    simp

/-- Witness for `C2_fallback_resolution` on a fresh manager: the fallback
branch and the no-fallback branch at concrete inputs. -/
theorem C2_fallback_resolution_witness :
    (dmSettle (dmCall dmInit "x" 0).1 "x" 0 (.failure "boom") c1fb 0).2.2
      = .ok ((dmCall dmInit "x" 0).1.next) ∧
    (dmSettle (dmCall dmInit "x" 0).1 "x" 0 (.failure "boom") c1fb 0).1.staticData "x"
      = some ((dmCall dmInit "x" 0).1.next) ∧
    (dmSettle (dmCall dmInit "x" 0).1 "x" 0 (.failure "boom") (fun _ => none) 0).2.2
      = .error "boom" ∧
    (dmCall (dmSettle (dmCall dmInit "x" 0).1 "x" 0 (.failure "boom")
        (fun _ => none) 0).1 "x" 1).2
      = .started (dmSettle (dmCall dmInit "x" 0).1 "x" 0 (.failure "boom")
          (fun _ => none) 0).1.nextPid := by
  have h := C2_fallback_resolution (dmCall dmInit "x" 0).1 "x" 0 "boom" c1fb
    (fun _ => none) 0 (Json.str "fallback home") rfl rfl
  exact ⟨h.1.1, h.1.2.1, (h.2 rfl rfl).1, ((h.2 rfl rfl).2.2.2 1 rfl).1⟩

/-- **C7, amended.** In every reachable manager state, the snapshot-hit,
TTL-cache-hit and first-resolution paths return a fresh address holding a
tree equal to the stored snapshot's (a deep copy, distinct reference);
but the in-flight-join path resolves to the very address stored as the
snapshot, and so does the fallback path — callers on those two paths can
mutate the shared cache. -/
theorem C7_deep_copy_paths (fb : String → Option Json) (s : DMState) (k : String)
    (now : Int) (hr : DMReachable fb s) :
    (∀ a, s.staticData k = some a →
      (dmCall s k now).2 = .value s.next ∧ s.next ≠ a ∧
      (dmCall s k now).1.heap s.next = s.heap a) ∧
    (∀ a, s.staticData k = none → s.loading k = none →
      (s.cache.get ("static_" ++ k) now).2 = some a →
      (dmCall s k now).2 = .value s.next ∧ s.next ≠ a ∧
      (dmCall s k now).1.heap s.next = s.heap a ∧
      (dmCall s k now).1.staticData k = some a) ∧
    (∀ pid j now2, s.loading k = some pid →
      (dmSettle s k pid (.success j) fb now2).2.2 = .ok (s.next + 1) ∧
      (dmSettle s k pid (.success j) fb now2).1.staticData k = some s.next ∧
      s.next + 1 ≠ s.next ∧
      (dmSettle s k pid (.success j) fb now2).1.heap (s.next + 1)
        = (dmSettle s k pid (.success j) fb now2).1.heap s.next) ∧
    (∀ pid j now2, s.loading k = some pid →
      (dmSettle s k pid (.success j) fb now2).2.1 = .ok s.next ∧
      (dmSettle s k pid (.success j) fb now2).1.staticData k = some s.next) ∧
    (∀ pid msg jf now2, s.loading k = some pid → fb k = some jf →
      (dmSettle s k pid (.failure msg) fb now2).2.1 = .error msg ∧
      (dmSettle s k pid (.failure msg) fb now2).2.2 = .ok s.next ∧
      (dmSettle s k pid (.failure msg) fb now2).1.staticData k = some s.next) := by
  have hinv := dmInv_reachable fb s hr
  refine ⟨?_, ?_, ?_, ?_, ?_⟩
  · intro a hsd
    obtain ⟨hc1, _, hc3, _, _, _, _, _, _⟩ := dmCall_snapshot s k now a hsd
    refine ⟨hc1, ?_, by rw [hc3, deepClone_eq]⟩
    have := hinv.staticLt k a hsd
    omega
  · intro a hsd hld hcg
    obtain ⟨hc1, _, hc3, _, hst, _, _, _, _⟩ := dmCall_cachehit s k now a hsd hld hcg
    have halt : a < s.next := cache_get_some_lt s.cache _ now s.next hinv.cacheLt a hcg
    refine ⟨hc1, by omega, by rw [hc3, deepClone_eq], ?_⟩
    rw [hst]
    unfold fupdate
    rw [if_pos rfl]
  · intro pid j now2 hl
    obtain ⟨_, h2, _, hh1, hh2, _, hst, _, _, _, _⟩ := dmSettle_success s k pid j fb now2
    refine ⟨h2, ?_, by omega, ?_⟩
    · rw [hst]
      unfold fupdate
      rw [if_pos rfl]
    · rw [hh1, hh2, deepClone_eq]
  · intro pid j now2 hl
    obtain ⟨h1, _, _, _, _, _, hst, _, _, _, _⟩ := dmSettle_success s k pid j fb now2
    refine ⟨h1, ?_⟩
    rw [hst]
    unfold fupdate
    rw [if_pos rfl]
  · intro pid msg jf now2 hl hfb
    obtain ⟨h1, h2, _, _, _, hst, _, _, _, _⟩ := dmSettle_fail_fb s k pid msg fb now2 jf hfb
    refine ⟨h1, h2, ?_⟩
    rw [hst]
    unfold fupdate
    rw [if_pos rfl]

/-- **C7, counterexample.** A deduplicated second caller of
`getData("x")` receives, on success, the very object stored as the
shared snapshot — address `0`, the same reference, not a deep copy. -/
theorem C7_joiner_shares_snapshot :
    (dmSettle (dmCall dmInit "x" 0).1 "x" 0
        (.success (Json.obj [("title", Json.str "X")])) (fun _ => none) 0).2.1
      = .ok 0 ∧
    (dmSettle (dmCall dmInit "x" 0).1 "x" 0
        (.success (Json.obj [("title", Json.str "X")])) (fun _ => none) 0).1.staticData
        "x" = some 0 := by
  exact ⟨rfl, rfl⟩

/-- Witness for `C7_deep_copy_paths`: the snapshot-hit branch after a
successful resolution of `"x"` on a fresh manager. -/
theorem C7_deep_copy_paths_witness :
    (dmCall (dmSettle (dmCall dmInit "x" 0).1 "x" 0
        (.success (Json.obj [("title", Json.str "X")])) (fun _ => none) 0).1 "x" 5).2
      = .value (dmSettle (dmCall dmInit "x" 0).1 "x" 0
          (.success (Json.obj [("title", Json.str "X")])) (fun _ => none) 0).1.next ∧
    (dmSettle (dmCall dmInit "x" 0).1 "x" 0
        (.success (Json.obj [("title", Json.str "X")])) (fun _ => none) 0).1.next ≠ 0 ∧
    (dmCall (dmSettle (dmCall dmInit "x" 0).1 "x" 0
        (.success (Json.obj [("title", Json.str "X")])) (fun _ => none) 0).1 "x" 5).1.heap
        ((dmSettle (dmCall dmInit "x" 0).1 "x" 0
          (.success (Json.obj [("title", Json.str "X")])) (fun _ => none) 0).1.next)
      = (dmSettle (dmCall dmInit "x" 0).1 "x" 0
          (.success (Json.obj [("title", Json.str "X")])) (fun _ => none) 0).1.heap 0 := by
  exact (C7_deep_copy_paths (fun _ => none)
    (dmSettle (dmCall dmInit "x" 0).1 "x" 0
      (.success (Json.obj [("title", Json.str "X")])) (fun _ => none) 0).1 "x" 5
    (Relation.ReflTransGen.tail
      (Relation.ReflTransGen.tail Relation.ReflTransGen.refl
        (DMStep.call dmInit "x" 0))
      (DMStep.settle (dmCall dmInit "x" 0).1 "x" 0
        (.success (Json.obj [("title", Json.str "X")])) 0 rfl))).1 0 rfl

end GICA
